import Mathlib

/-
Verification development for the EigenDA data-availability retrieval and
certificate subsystem of the mantle kona repository.

Byte strings are modelled as `List Nat` (each entry a byte value `< 256`);
machine integers are `Nat` with explicit width bounds where overflow or
truncation matters.  Rust functions returning `Result` become `Except`;
Rust panics (slice-length mismatches in `copy_from_slice`, out-of-bounds
range indexing) are modelled as `Option.none` or a dedicated `crashed`
outcome, so that partiality of the original code is visible.

The RLP encoder/decoder semantics below mirror the parity `rlp` crate
(`RlpStream`, `Rlp`, `BasicDecoder`), which is the (external) library the
repository's `Encodable`/`Decodable` impls in
`crates/derive-alloy/src/eigen_da/grpc/rlp.rs` are written against.
-/

namespace KonaEigenDA

/-! ## Byte utilities -/

/-- Minimal big-endian byte representation of a natural number, with an
explicit fuel argument (`beBytesAux n n` is fully evaluated since
`n / 256 < n` for `n > 0`). `beBytes 0 = []`. -/
def beBytesAux : Nat → Nat → List Nat
  | _, 0 => []
  | 0, _ + 1 => []
  | f + 1, n + 1 => beBytesAux f ((n + 1) / 256) ++ [(n + 1) % 256]

/-- Minimal big-endian bytes of `n` (empty for `0`), as produced by
`to_be_bytes` after stripping leading zero bytes. -/
def beBytes (n : Nat) : List Nat := beBytesAux n n

/-- Big-endian value of a byte string. -/
def beVal (l : List Nat) : Nat := l.foldl (fun a d => a * 256 + d) 0

/-- Fixed-width big-endian bytes (`w`-byte, zero-padded on the left), as
produced by Rust's `u64::to_be_bytes` for `w = 8`. -/
def fixedBE (w n : Nat) : List Nat :=
  List.replicate (w - (beBytes n).length) 0 ++ beBytes n

/-- `copy_from_slice` into `dst[off .. off + src.length]` (callers ensure the
destination range exists and matches `src.length`). -/
def writeSlice (dst : List Nat) (off : Nat) (src : List Nat) : List Nat :=
  dst.take off ++ src ++ dst.drop (off + src.length)

/-- A well-formed byte string: every entry is a byte, and the length is
(comfortably) below the `usize` range used by the Rust code.  Real EigenDA
certificate fields are far below this bound. -/
def WFBytes (b : List Nat) : Prop := (∀ x ∈ b, x < 256) ∧ b.length < 2 ^ 32

instance (b : List Nat) : Decidable (WFBytes b) := by
  unfold WFBytes; infer_instance

theorem beBytesAux_zero (f : Nat) : beBytesAux f 0 = [] := by
  cases f <;> rfl

theorem beBytesAux_congr (n : Nat) : ∀ f g : Nat, n ≤ f → n ≤ g →
    beBytesAux f n = beBytesAux g n := by
  induction n using Nat.strong_induction_on with
  | _ n ih =>
    intro f g hf hg
    match n, f, g with
    | 0, f, g => rw [beBytesAux_zero, beBytesAux_zero]
    | n + 1, f + 1, g + 1 =>
      show beBytesAux f ((n + 1) / 256) ++ _ = beBytesAux g ((n + 1) / 256) ++ _
      have hd : (n + 1) / 256 < n + 1 := Nat.div_lt_self (Nat.succ_pos n) (by norm_num)
      rw [ih ((n + 1) / 256) hd f g (by omega) (by omega)]

theorem beBytes_zero : beBytes 0 = [] := rfl

theorem beBytes_pos (n : Nat) (h : 0 < n) :
    beBytes n = beBytes (n / 256) ++ [n % 256] := by
  match n, h with
  | n + 1, _ =>
    show beBytesAux (n + 1) (n + 1) = _
    have hd : (n + 1) / 256 ≤ n := by
      have := Nat.div_lt_self (Nat.succ_pos n) (show 1 < 256 by norm_num)
      omega
    show beBytesAux n ((n + 1) / 256) ++ [(n + 1) % 256] = _
    rw [beBytesAux_congr ((n + 1) / 256) n ((n + 1) / 256) hd (Nat.le_refl _)]
    rfl

theorem beVal_append_singleton (l : List Nat) (d : Nat) :
    beVal (l ++ [d]) = beVal l * 256 + d := by
  simp [beVal, List.foldl_append]

theorem beVal_beBytes (n : Nat) : beVal (beBytes n) = n := by
  induction n using Nat.strong_induction_on with
  | _ n ih =>
    rcases Nat.eq_zero_or_pos n with h | h
    · subst h; rfl
    · rw [beBytes_pos n h, beVal_append_singleton,
        ih (n / 256) (Nat.div_lt_self h (by norm_num))]
      omega

theorem beBytes_ne_nil (n : Nat) (h : 0 < n) : beBytes n ≠ [] := by
  rw [beBytes_pos n h]; simp

theorem beBytes_head_ne_zero (n : Nat) (h : 0 < n) : (beBytes n).headD 0 ≠ 0 := by
  induction n using Nat.strong_induction_on with
  | _ n ih =>
    rw [beBytes_pos n h]
    rcases Nat.eq_zero_or_pos (n / 256) with h2 | h2
    · rw [h2, beBytes_zero]
      simp only [List.nil_append, List.headD_cons]
      omega
    · have := ih (n / 256) (Nat.div_lt_self h (by norm_num)) h2
      rcases he : beBytes (n / 256) with _ | ⟨a, t⟩
      · exact absurd he (beBytes_ne_nil _ h2)
      · rw [he] at this; simpa using this

theorem beBytes_lt_256 (n : Nat) : ∀ x ∈ beBytes n, x < 256 := by
  induction n using Nat.strong_induction_on with
  | _ n ih =>
    rcases Nat.eq_zero_or_pos n with h | h
    · subst h; simp [beBytes_zero]
    · rw [beBytes_pos n h]
      intro x hx
      rcases List.mem_append.mp hx with hx | hx
      · exact ih (n / 256) (Nat.div_lt_self h (by norm_num)) x hx
      · simp only [List.mem_singleton] at hx
        subst hx; exact Nat.mod_lt _ (by norm_num)

theorem beBytes_length_le (n k : Nat) (h : n < 256 ^ k) : (beBytes n).length ≤ k := by
  induction k generalizing n with
  | zero =>
    simp only [pow_zero, Nat.lt_one_iff] at h
    subst h; simp [beBytes_zero]
  | succ k ih =>
    rcases Nat.eq_zero_or_pos n with h0 | h0
    · subst h0; simp [beBytes_zero]
    · rw [beBytes_pos n h0]
      have : n / 256 < 256 ^ k := by
        rw [Nat.div_lt_iff_lt_mul (by norm_num)]
        calc n < 256 ^ (k + 1) := h
        _ = 256 ^ k * 256 := by ring
      simpa using ih (n / 256) this

/-! ## RLP encoding (parity `rlp` crate `RlpStream` semantics) -/

/-- `BasicEncoder::encode_value`: a single byte below `0x80` stands for
itself; otherwise a short (`0x80 + len`) or long (`0xb7 + len-of-len`)
string header precedes the payload. -/
def encBytes (b : List Nat) : List Nat :=
  if b.length = 1 ∧ b.headD 0 < 0x80 then b
  else if b.length ≤ 55 then (0x80 + b.length) :: b
  else (0xb7 + (beBytes b.length).length) :: (beBytes b.length ++ b)

/-- List item from an already-concatenated payload (`RlpStream` writes a
`0xc0 + len` or `0xf7 + len-of-len` header once the list is complete). -/
def encListPayload (p : List Nat) : List Nat :=
  if p.length ≤ 55 then (0xc0 + p.length) :: p
  else (0xf7 + (beBytes p.length).length) :: (beBytes p.length ++ p)

/-- Unsigned-integer item (`impl Encodable for u32/u64`): the minimal
big-endian bytes, encoded as a string value. -/
def encUint (n : Nat) : List Nat := encBytes (beBytes n)

/-- `Option` sub-record slot as written by `rlp_append` in
`grpc/rlp.rs`: `Some` appends the nested record's item, `None` appends
the empty string (`append_empty_data`, i.e. `0x80`). -/
def encOptItem (enc : α → List Nat) : Option α → List Nat
  | some a => enc a
  | none => [0x80]

/-! ## Certificate data model

The record types mirror the prost-generated `grpc::disperser` structs the
rlp impls are written for.  Modelled from the spec: the generated struct
declarations themselves are not under `src/`; spec section 3 gives the field
types (`u32` numerics, `bytes` byte strings, optional sub-records), which
also match every field access in `grpc/rlp.rs`. -/

/-- G1 commitment point: two coordinate byte strings. -/
structure G1Commitment where
  x : List Nat
  y : List Nat
deriving DecidableEq, Repr

/-- Per-quorum security parameters (all `u32`). -/
structure BlobQuorumParam where
  quorum_number : Nat
  adversary_threshold_percentage : Nat
  confirmation_threshold_percentage : Nat
  chunk_length : Nat
deriving DecidableEq, Repr

/-- Blob header: optional commitment, length in field elements, quorum
parameters. -/
structure BlobHeader where
  commitment : Option G1Commitment
  data_length : Nat
  blob_quorum_params : List BlobQuorumParam
deriving DecidableEq, Repr

/-- Batch header record. -/
structure BatchHeader where
  batch_root : List Nat
  quorum_numbers : List Nat
  quorum_signed_percentages : List Nat
  reference_block_number : Nat
deriving DecidableEq, Repr

/-- Batch metadata record. -/
structure BatchMetadata where
  batch_header : Option BatchHeader
  signatory_record_hash : List Nat
  fee : List Nat
  confirmation_block_number : Nat
  batch_header_hash : List Nat
deriving DecidableEq, Repr

/-- Blob verification proof record. -/
structure BlobVerificationProof where
  batch_id : Nat
  blob_index : Nat
  batch_metadata : Option BatchMetadata
  inclusion_proof : List Nat
  quorum_indexes : List Nat
deriving DecidableEq, Repr

/-- The certificate: both sub-records optional on the wire. -/
structure BlobInfo where
  blob_header : Option BlobHeader
  blob_verification_proof : Option BlobVerificationProof
deriving DecidableEq, Repr

/-! ## Certificate encoders (translated from `grpc/rlp.rs`, `rlp_append`) -/

/-- `impl Encodable for G1Commitment`: 2-item list `[x, y]`. -/
def encodeG1 (c : G1Commitment) : List Nat :=
  encListPayload (encBytes c.x ++ encBytes c.y)

/-- `impl Encodable for BlobQuorumParam`: 4-item list of `u32`s. -/
def encodeQuorumParam (q : BlobQuorumParam) : List Nat :=
  encListPayload (encUint q.quorum_number ++
    encUint q.adversary_threshold_percentage ++
    encUint q.confirmation_threshold_percentage ++
    encUint q.chunk_length)

/-- `impl Encodable for BlobHeader`: 3-item list; the third item is the
nested list of quorum params. -/
def encodeBlobHeader (h : BlobHeader) : List Nat :=
  encListPayload (encOptItem encodeG1 h.commitment ++
    encUint h.data_length ++
    encListPayload (h.blob_quorum_params.map encodeQuorumParam).flatten)

/-- `impl Encodable for BatchHeader`: 4-item list. -/
def encodeBatchHeader (h : BatchHeader) : List Nat :=
  encListPayload (encBytes h.batch_root ++
    encBytes h.quorum_numbers ++
    encBytes h.quorum_signed_percentages ++
    encUint h.reference_block_number)

/-- `impl Encodable for BatchMetadata`: 5-item list. -/
def encodeBatchMetadata (m : BatchMetadata) : List Nat :=
  encListPayload (encOptItem encodeBatchHeader m.batch_header ++
    encBytes m.signatory_record_hash ++
    encBytes m.fee ++
    encUint m.confirmation_block_number ++
    encBytes m.batch_header_hash)

/-- `impl Encodable for BlobVerificationProof`: 5-item list.  Note
`quorum_indexes` (a `bytes` field) is appended as a string value. -/
def encodeProof (p : BlobVerificationProof) : List Nat :=
  encListPayload (encUint p.batch_id ++
    encUint p.blob_index ++
    encOptItem encodeBatchMetadata p.batch_metadata ++
    encBytes p.inclusion_proof ++
    encBytes p.quorum_indexes)

/-- `impl Encodable for BlobInfo`: 2-item list of optional sub-records. -/
def encodeBlobInfo (v : BlobInfo) : List Nat :=
  encListPayload (encOptItem encodeBlobHeader v.blob_header ++
    encOptItem encodeProof v.blob_verification_proof)

/-! ## RLP decoding (parity `rlp` crate `Rlp` / `BasicDecoder` semantics)

Error names follow `DecoderError`; a few malformed-input corner cases
(header declaring more length bytes than are present, where the Rust
slice indexing would abort) are collapsed onto `RlpIsTooShort` — no
claim depends on those paths. -/

/-- Decoder errors (`rlp::DecoderError` variants used by this subsystem). -/
inductive DErr
  | RlpIsTooShort
  | RlpExpectedToBeList
  | RlpExpectedToBeData
  | RlpIncorrectListLen
  | RlpInvalidIndirection
  | RlpInconsistentLengthAndData
  | RlpIsTooBig
  | LeadingZero
deriving DecidableEq, Repr

/-- `rlp::decode_usize`: big-endian value of at most 8 length bytes, with a
leading-zero rejection. -/
def decodeUsize (b : List Nat) : Except DErr Nat :=
  if b.length ≤ 8 then
    if b.headD 1 = 0 then .error .LeadingZero
    else .ok (beVal b)
  else .error .RlpIsTooBig

/-- Total-length validation performed after reading an item header
(`header_len + value_len` must fit in the remaining slice). -/
def checkTotal (b : List Nat) (h l : Nat) : Except DErr (Nat × Nat) :=
  if h + l ≤ b.length then .ok (h, l) else .error .RlpInconsistentLengthAndData

/-- `PayloadInfo::from` + the total-length check: returns
`(header_len, value_len)` of the first item of `b`. -/
def payloadInfo (b : List Nat) : Except DErr (Nat × Nat) :=
  match b with
  | [] => .error .RlpIsTooShort
  | l :: rest =>
    if l ≤ 0x7f then checkTotal b 0 1
    else if l ≤ 0xb7 then checkTotal b 1 (l - 0x80)
    else if l ≤ 0xbf then
      if b.length < 1 + (l - 0xb7) then .error .RlpIsTooShort
      else match decodeUsize (rest.take (l - 0xb7)) with
        | .error e => .error e
        | .ok len => checkTotal b (1 + (l - 0xb7)) len
    else if l ≤ 0xf7 then checkTotal b 1 (l - 0xc0)
    else
      if b.length < 1 + (l - 0xf7) then .error .RlpIsTooShort
      else match decodeUsize (rest.take (l - 0xf7)) with
        | .error e => .error e
        | .ok len => checkTotal b (1 + (l - 0xf7)) len

/-- Consume the first item (header and payload) of `b`, returning the item
slice and the remainder. -/
def takeItem (b : List Nat) : Except DErr (List Nat × List Nat) :=
  match payloadInfo b with
  | .error e => .error e
  | .ok (h, l) => .ok (b.take (h + l), b.drop (h + l))

/-- Fuel-driven split of a list payload into its item slices (the fuel is
an upper bound on the item count; `splitItems` supplies the payload
length).  Mirrors the traversal done by `Rlp::item_count` / `Rlp::at`. -/
def splitItemsF : Nat → List Nat → Except DErr (List (List Nat))
  | _, [] => .ok []
  | 0, _ :: _ => .error .RlpIsTooShort
  | f + 1, x :: xs =>
    match takeItem (x :: xs) with
    | .error e => .error e
    | .ok (it, rest) =>
      match splitItemsF f rest with
      | .error e => .error e
      | .ok more => .ok (it :: more)

/-- Split a list payload into its item slices. -/
def splitItems (b : List Nat) : Except DErr (List (List Nat)) :=
  splitItemsF b.length b

/-- Fuel-driven prefix of well-formed item slices: the `RlpIterator` stops
(returns `None`) at the first traversal error instead of propagating it. -/
def itemSeqF : Nat → List Nat → List (List Nat)
  | _, [] => []
  | 0, _ :: _ => []
  | f + 1, x :: xs =>
    match takeItem (x :: xs) with
    | .error _ => []
    | .ok (it, rest) => it :: itemSeqF f rest

/-- Item slices reachable by the `RlpIterator` over a payload. -/
def itemSeq (b : List Nat) : List (List Nat) := itemSeqF b.length b

/-- `Rlp::is_list`: nonempty and first byte at least `0xc0`. -/
def rlpIsList (b : List Nat) : Bool :=
  match b with
  | [] => false
  | x :: _ => decide (0xc0 ≤ x)

/-- `Rlp::is_empty`: nonempty and first byte exactly `0xc0` or `0x80`. -/
def rlpIsEmpty (b : List Nat) : Bool :=
  match b with
  | [] => false
  | x :: _ => decide (x = 0xc0 ∨ x = 0x80)

/-- Item slices of a list item (errors on a non-list, like
`Rlp::item_count` / `Rlp::at` do). -/
def listItems (b : List Nat) : Except DErr (List (List Nat)) :=
  if rlpIsList b then
    match payloadInfo b with
    | .error e => .error e
    | .ok (h, l) => splitItems ((b.drop h).take l)
  else .error .RlpExpectedToBeList

/-- `Rlp::item_count`. -/
def itemCount (b : List Nat) : Except DErr Nat :=
  (listItems b).map List.length

/-- `Rlp::at`: the `i`-th item slice of a list item. -/
def atIdx (b : List Nat) (i : Nat) : Except DErr (List Nat) :=
  match listItems b with
  | .error e => .error e
  | .ok its =>
    match its.get? i with
    | some it => .ok it
    | none => .error .RlpIsTooShort

/-- `BasicDecoder::decode_value` specialised to returning the payload
bytes (`impl Decodable for Vec<u8>`). -/
def decodeValue (b : List Nat) : Except DErr (List Nat) :=
  match b with
  | [] => .error .RlpIsTooShort
  | l :: rest =>
    if l ≤ 0x7f then .ok [l]
    else if l ≤ 0xb7 then
      if b.length < 1 + (l - 0x80) then .error .RlpInconsistentLengthAndData
      else
        if l = 0x81 ∧ (rest.take (l - 0x80)).headD 0 < 0x80 then
          .error .RlpInvalidIndirection
        else .ok (rest.take (l - 0x80))
    else if l ≤ 0xbf then
      if b.length < 1 + (l - 0xb7) then .error .RlpInconsistentLengthAndData
      else match decodeUsize (rest.take (l - 0xb7)) with
        | .error e => .error e
        | .ok n =>
          if b.length < 1 + (l - 0xb7) + n then .error .RlpInconsistentLengthAndData
          else .ok ((rest.drop (l - 0xb7)).take n)
    else .error .RlpExpectedToBeData

/-- `impl Decodable for u8/u32` (`impl_decodable_for_uint!`): payload of at
most `size` bytes, leading zero byte rejected. -/
def decodeUintVal (size : Nat) (b : List Nat) : Except DErr Nat :=
  match decodeValue b with
  | .error e => .error e
  | .ok d =>
    if d.length ≤ size then
      if d ≠ [] ∧ d.headD 1 = 0 then .error .RlpInvalidIndirection
      else .ok (beVal d)
    else .error .RlpIsTooBig

/-- `Rlp::val_at` for byte-string fields. -/
def valAtBytes (b : List Nat) (i : Nat) : Except DErr (List Nat) :=
  match atIdx b i with
  | .error e => .error e
  | .ok it => decodeValue it

/-- `Rlp::val_at` for unsigned-integer fields. -/
def valAtUint (size : Nat) (b : List Nat) (i : Nat) : Except DErr Nat :=
  match atIdx b i with
  | .error e => .error e
  | .ok it => decodeUintVal size it

/-- Effectful map used by `as_list` (element decode errors propagate). -/
def exMapM (dec : List Nat → Except DErr α) : List (List Nat) → Except DErr (List α)
  | [] => .ok []
  | it :: its =>
    match dec it with
    | .error e => .error e
    | .ok a =>
      match exMapM dec its with
      | .error e => .error e
      | .ok as => .ok (a :: as)

/-- `Rlp::as_list`: iterate the item (yielding nothing on a non-list or on
a traversal error — iterator errors become `None`), decoding each
reachable item; element decode errors propagate. -/
def asListWith (dec : List Nat → Except DErr α) (b : List Nat) : Except DErr (List α) :=
  if rlpIsList b then
    match payloadInfo b with
    | .error _ => .ok []
    | .ok (h, l) => exMapM dec (itemSeq ((b.drop h).take l))
  else .ok []

/-- `Rlp::list_at`. -/
def listAtWith (dec : List Nat → Except DErr α) (b : List Nat) (i : Nat) :
    Except DErr (List α) :=
  match atIdx b i with
  | .error e => .error e
  | .ok it => asListWith dec it

/-! ## Certificate decoders (translated from `grpc/rlp.rs`, `decode`) -/

/-- `impl Decodable for G1Commitment`. -/
def decodeG1 (b : List Nat) : Except DErr G1Commitment :=
  match itemCount b with
  | .error e => .error e
  | .ok n =>
    if n ≠ 2 then .error .RlpIncorrectListLen
    else
      match valAtBytes b 0 with
      | .error e => .error e
      | .ok x =>
        match valAtBytes b 1 with
        | .error e => .error e
        | .ok y => .ok ⟨x, y⟩

/-- `impl Decodable for BlobQuorumParam`. -/
def decodeQuorumParam (b : List Nat) : Except DErr BlobQuorumParam :=
  match itemCount b with
  | .error e => .error e
  | .ok n =>
    if n ≠ 4 then .error .RlpIncorrectListLen
    else
      match valAtUint 4 b 0 with
      | .error e => .error e
      | .ok qn =>
        match valAtUint 4 b 1 with
        | .error e => .error e
        | .ok adv =>
          match valAtUint 4 b 2 with
          | .error e => .error e
          | .ok conf =>
            match valAtUint 4 b 3 with
            | .error e => .error e
            | .ok cl => .ok ⟨qn, adv, conf, cl⟩

/-- `impl Decodable for BatchHeader`. -/
def decodeBatchHeader (b : List Nat) : Except DErr BatchHeader :=
  match itemCount b with
  | .error e => .error e
  | .ok n =>
    if n ≠ 4 then .error .RlpIncorrectListLen
    else
      match valAtBytes b 0 with
      | .error e => .error e
      | .ok root =>
        match valAtBytes b 1 with
        | .error e => .error e
        | .ok qns =>
          match valAtBytes b 2 with
          | .error e => .error e
          | .ok qsp =>
            match valAtUint 4 b 3 with
            | .error e => .error e
            | .ok rbn => .ok ⟨root, qns, qsp, rbn⟩

/-- Decode an optional sub-record slot: `if !rlp.at(i)?.is_empty()
{ Some(rlp.val_at(i)?) } else { None }`. -/
def decodeOptAt (dec : List Nat → Except DErr α) (b : List Nat) (i : Nat) :
    Except DErr (Option α) :=
  match atIdx b i with
  | .error e => .error e
  | .ok it =>
    if rlpIsEmpty it then .ok none
    else
      match dec it with
      | .error e => .error e
      | .ok a => .ok (some a)

/-- `impl Decodable for BatchMetadata`. -/
def decodeBatchMetadata (b : List Nat) : Except DErr BatchMetadata :=
  match itemCount b with
  | .error e => .error e
  | .ok n =>
    if n ≠ 5 then .error .RlpIncorrectListLen
    else
      match decodeOptAt decodeBatchHeader b 0 with
      | .error e => .error e
      | .ok bh =>
        match valAtBytes b 1 with
        | .error e => .error e
        | .ok srh =>
          match valAtBytes b 2 with
          | .error e => .error e
          | .ok fee =>
            match valAtUint 4 b 3 with
            | .error e => .error e
            | .ok cbn =>
              match valAtBytes b 4 with
              | .error e => .error e
              | .ok bhh => .ok ⟨bh, srh, fee, cbn, bhh⟩

/-- `impl Decodable for BlobHeader` (arity check is `< 3`, not `≠ 3`). -/
def decodeBlobHeader (b : List Nat) : Except DErr BlobHeader :=
  match itemCount b with
  | .error e => .error e
  | .ok n =>
    if n < 3 then .error .RlpIncorrectListLen
    else
      match decodeOptAt decodeG1 b 0 with
      | .error e => .error e
      | .ok c =>
        match valAtUint 4 b 1 with
        | .error e => .error e
        | .ok dl =>
          match listAtWith decodeQuorumParam b 2 with
          | .error e => .error e
          | .ok params => .ok ⟨c, dl, params⟩

/-- `impl Decodable for BlobVerificationProof`.  Note `quorum_indexes`
is read back with `list_at` (a list of `u8` items), although it was
encoded as a single byte-string item. -/
def decodeProof (b : List Nat) : Except DErr BlobVerificationProof :=
  match itemCount b with
  | .error e => .error e
  | .ok n =>
    if n ≠ 5 then .error .RlpIncorrectListLen
    else
      match valAtUint 4 b 0 with
      | .error e => .error e
      | .ok bid =>
        match valAtUint 4 b 1 with
        | .error e => .error e
        | .ok bix =>
          match decodeOptAt decodeBatchMetadata b 2 with
          | .error e => .error e
          | .ok md =>
            match valAtBytes b 3 with
            | .error e => .error e
            | .ok ip =>
              match listAtWith (decodeUintVal 1) b 4 with
              | .error e => .error e
              | .ok qi => .ok ⟨bid, bix, md, ip, qi⟩

/-- `impl Decodable for BlobInfo` (also the behaviour of
`rlp::decode::<BlobInfo>` on a full byte slice). -/
def decodeBlobInfo (b : List Nat) : Except DErr BlobInfo :=
  match itemCount b with
  | .error e => .error e
  | .ok n =>
    if n ≠ 2 then .error .RlpIncorrectListLen
    else
      match decodeOptAt decodeBlobHeader b 0 with
      | .error e => .error e
      | .ok h =>
        match decodeOptAt decodeProof b 1 with
        | .error e => .error e
        | .ok p => .ok ⟨h, p⟩

/-! ## Commitment wrapping (`crates/eigen-da/src/eigen_da_proxy.rs`, same
code duplicated in `crates/derive/src/eigen_da/eigen_da_proxy.rs`) -/

/-- Errors of `EigenDaProxy::decode_commitment` (anyhow messages modelled
structurally). -/
inductive CommitmentErr
  | tooShort
  | invalidType
  | rlpFailed (e : DErr)
deriving DecidableEq, Repr

/-- `EigenDaProxy::decode_commitment`: requires at least 3 bytes, checks the
`[GENERIC_COMMITMENT_TYPE, EIGEN_DA_COMMITMENT_TYPE, CERT_V0] = [1, 0, 0]`
prefix, then RLP-decodes the remainder as a `BlobInfo`. -/
def decodeCommitment (c : List Nat) : Except CommitmentErr BlobInfo :=
  match c with
  | c0 :: c1 :: c2 :: rest =>
    if c0 ≠ 1 ∨ c1 ≠ 0 ∨ c2 ≠ 0 then .error .invalidType
    else
      match decodeBlobInfo rest with
      | .error e => .error (.rlpFailed e)
      | .ok v => .ok v
  | _ => .error .tooShort

/-- `EigenDaProxy::encode_commitment`: the code serialises the `BlobInfo`
with `prost::Message::encode` (protobuf) and appends those bytes to an
`RlpStream` as a single byte-string item, after the three tag bytes.
The prost encoder itself is generated library code, so the protobuf
bytes are taken as a parameter `pbBytes`; the theorems below hold for
every possible value of it. -/
def encodeCommitment (pbBytes : List Nat) : List Nat :=
  [1, 0, 0] ++ encBytes pbBytes

/-! ## Field-element padding codec
(`crates/derive/src/eigen_da/codec.rs`)

The Rust loops write each chunk into a pre-allocated vector with
`copy_from_slice`, whose destination slice is always 31 bytes wide; when the
final chunk is shorter, `copy_from_slice` panics on the length mismatch.
The panic is modelled as `none`; the final `truncate(valid_end)` is the
identity on every non-panicking run (`valid_end` is only reassigned in the
branch that panics), so it does not appear separately. -/

/-- `convert_by_padding_empty_byte`: one `0x00`-led 32-byte group per
31-byte chunk. -/
def convertByPaddingEmptyByte (data : List Nat) : Option (List Nat) :=
  ((List.range ((data.length + 30) / 31)).mapM (fun i =>
    let s := i * 31
    let e := if (i + 1) * 31 > data.length then data.length else (i + 1) * 31
    if e - s = 31 then some (0 :: (data.drop s).take 31) else none)).map
    List.flatten

/-- `remove_empty_byte_from_padded_bytes`: drop the first byte of every
32-byte group. -/
def removeEmptyByteFromPaddedBytes (data : List Nat) : Option (List Nat) :=
  ((List.range ((data.length + 31) / 32)).mapM (fun i =>
    let s := i * 32 + 1
    let e := if (i + 1) * 32 > data.length then data.length else (i + 1) * 32
    if e - s = 31 then some ((data.drop s).take 31) else none)).map
    List.flatten

/-! ## Field-element extraction
(`crates/protocol/eigenda/src/utils.rs`) -/

/-- `extract_field_element`: the `field_index`-th `field_element_size`-byte
window of `blob_data`, zero-filled beyond the end of the buffer. -/
def extract_field_element (blob_data : List Nat) (field_index : Nat)
    (field_element_size : Nat) : List Nat :=
  let field_start := field_index * field_element_size
  let field_end := field_start + field_element_size
  let available_end := min blob_data.length field_end
  if field_start ≥ blob_data.length then
    List.replicate field_element_size 0
  else
    let copy_len := available_end - field_start
    (blob_data.drop field_start).take copy_len ++
      List.replicate (field_element_size - copy_len) 0

/-! ## Preimage-key derivation

Host side: `bin/host/src/single/handler.rs` (`HintType::EigenDa` branch).
Client side: `crates/protocol/eigenda/src/utils.rs`, as used by
`crates/proof/proof/src/l1/eigen_da_provider.rs` (`OracleEigenDaProvider`).
Both construct 96-byte key buffers from the certificate commitment's
`x`/`y` coordinates and hash them with keccak256; the hash itself is an
external primitive, so every statement is parameterised by the hash
function `hash` — equal preimages give equal keys for any `hash`. -/

/-- Host: `blob_key = [0u8; 96]`, `x` at `0..32`, `y` at `32..64`,
`i.to_be_bytes()` at `88..96`. -/
def hostBlobKey (x y : List Nat) (i : Nat) : List Nat :=
  writeSlice (writeSlice (writeSlice (List.replicate 96 0) 0 x) 32 y) 88 (fixedBE 8 i)

/-- Host: `kzg_proof_key = blob_key[..64]`. -/
def hostKzgProofKey (x y : List Nat) : List Nat :=
  (writeSlice (writeSlice (List.replicate 96 0) 0 x) 32 y).take 64

/-- Host: `kzg_commitment_key = blob_key[..64] ++ [0u8]`. -/
def hostKzgCommitmentKey (x y : List Nat) : List Nat :=
  (writeSlice (writeSlice (List.replicate 96 0) 0 x) 32 y).take 64 ++ [0]

/-- Client: `create_blob_key_template` (`x` at `COMMITMENT_X_OFFSET = 0`,
`y` at `COMMITMENT_Y_OFFSET = 32` of a zeroed 96-byte buffer). -/
def create_blob_key_template (x y : List Nat) : List Nat :=
  writeSlice (writeSlice (List.replicate 96 0) 0 x) 32 y

/-- Client: `update_blob_key_with_index` (`field_index.to_be_bytes()` at
`FIELD_INDEX_OFFSET = 88`). -/
def update_blob_key_with_index (blob_key : List Nat) (field_index : Nat) : List Nat :=
  writeSlice blob_key 88 (fixedBE 8 field_index)

/-- Client: `create_kzg_proof_key` (first `KZG_PROOF_KEY_SIZE = 64` bytes). -/
def create_kzg_proof_key (blob_key : List Nat) : List Nat :=
  blob_key.take 64

/-- Client: `create_kzg_commitment_key` (first 64 bytes then a `0` byte). -/
def create_kzg_commitment_key (blob_key : List Nat) : List Nat :=
  blob_key.take 64 ++ [0]

/-- Host element key: hash of the 96-byte buffer. -/
def hostElementKey (hash : List Nat → List Nat) (x y : List Nat) (i : Nat) : List Nat :=
  hash (hostBlobKey x y i)

/-- Client element key: `calculate_blob_key_hash` of the template updated
with the field index. -/
def clientElementKey (hash : List Nat → List Nat) (x y : List Nat) (i : Nat) : List Nat :=
  hash (update_blob_key_with_index (create_blob_key_template x y) i)

/-- Modelled from the spec: `element_key(commitment, i) =
hash(commitment.x(32B) ‖ commitment.y(32B) ‖ be_bytes(i))`, with the index
serialised as the 32-byte big-endian word the handler's comment calls
`uint256(i)`. -/
def specElementKey (hash : List Nat → List Nat) (x y : List Nat) (i : Nat) : List Nat :=
  hash (x ++ y ++ fixedBE 32 i)

/-- Modelled from the spec: `proof_key(commitment) = hash(x ‖ y)`. -/
def specProofKey (hash : List Nat → List Nat) (x y : List Nat) : List Nat :=
  hash (x ++ y)

/-- Modelled from the spec: `commitment_key(commitment) =
hash(x ‖ y ‖ 0x00)`. -/
def specCommitmentKey (hash : List Nat → List Nat) (x y : List Nat) : List Nat :=
  hash (x ++ y ++ [0])

/-! ## Transport client error classification
(`EigenDaProxy::retrieve_blob_with_commitment`,
`crates/derive/src/eigen_da/eigen_da_proxy.rs`, and the `EigenDAProxyError`
enum in `crates/derive/src/errors/da.rs`)

The Rust code renders each failure into a `String` and wraps it in an
`EigenDAProxyError` variant; the strings come from external crates
(`anyhow`, `tokio::time::error::Elapsed`, `reqwest`), so they are modelled
structurally by `RbwcMsg` — what matters for the claims is which enum
variant and which message class each outcome lands in. -/

/-- Message classes produced inside `retrieve_blob_with_commitment`. -/
inductive RbwcMsg
  | decodeFailed (e : CommitmentErr)
  | timeoutElapsed
  | sendFailed
  | blobNotFound
  | badStatus (status : Nat)
  | bodyReadFailed
deriving DecidableEq, Repr

/-- The `EigenDAProxyError` enum. -/
inductive EigenDAProxyError
  | RetrieveBlob (m : RbwcMsg)
  | RetrieveBlobWithCommitment (m : RbwcMsg)
  | DisperseBlob (m : RbwcMsg)
  | GetBlobStatus (m : RbwcMsg)
  | NotFound
  | InvalidInput
  | TimeOut (m : RbwcMsg)
deriving DecidableEq, Repr

/-- Outcome of `timeout(self.retrieve_blob_timeout, req.send()).await` plus
the body read: the elapsed timeout, a transport send error, or a completed
response with a status code and (for 200) the body bytes.  `bodyFailed`
marks a failure while reading the body of a 200 response. -/
inductive HttpOutcome
  | timeoutHit
  | sendFailed
  | responseGot (status : Nat) (body : List Nat)
  | bodyFailed (status : Nat)
deriving DecidableEq, Repr

/-- `EigenDaProxy::retrieve_blob_with_commitment` as a function of the
commitment bytes and the HTTP outcome. -/
def retrieveBlobWithCommitment (commitment : List Nat) (http : HttpOutcome) :
    Except EigenDAProxyError (List Nat) :=
  match decodeCommitment commitment with
  | .error e => .error (.RetrieveBlobWithCommitment (.decodeFailed e))
  | .ok _ =>
    match http with
    | .timeoutHit => .error (.RetrieveBlobWithCommitment .timeoutElapsed)
    | .sendFailed => .error (.RetrieveBlobWithCommitment .sendFailed)
    | .responseGot status body =>
      if status = 404 then .error (.RetrieveBlobWithCommitment .blobNotFound)
      else if status ≠ 200 then
        .error (.RetrieveBlobWithCommitment (.badStatus status))
      else .ok body
    | .bodyFailed status =>
      if status = 404 then .error (.RetrieveBlobWithCommitment .blobNotFound)
      else if status ≠ 200 then
        .error (.RetrieveBlobWithCommitment (.badStatus status))
      else .error (.RetrieveBlobWithCommitment .bodyReadFailed)

/-! ## EigenDA source stage scan
(`EigenDaSource::data_from_eigen_da`, `crates/derive/src/sources/eigen_da.rs`)

A transaction is modelled by the data the loop extracts from the
`TxEnvelope` match at the top of the loop: transaction sort, `to` address,
calldata, optional blob-versioned hashes, and whether
`recover_signer().unwrap_or_default()` equals the configured signer.
The prost-generated `CalldataFrame::decode` and the provider call
`retrieve_blob_with_commitment` are trait/library boundaries and are
supplied through the environment. -/

/-- `FrameRef` (prost struct in `crates/derive/src/proto/calldata.rs`). -/
structure FrameRef where
  batch_header_hash : List Nat
  blob_index : Nat
  reference_block_number : Nat
  quorum_ids : List Nat
  blob_length : Nat
  request_id : List Nat
  commitment : List Nat
deriving DecidableEq, Repr

/-- `calldata_frame::Value`. -/
inductive CalldataFrameValue
  | frame (bytes : List Nat)
  | frameRef (fr : FrameRef)
deriving DecidableEq, Repr

/-- `CalldataFrame`. -/
structure CalldataFrame where
  value : Option CalldataFrameValue
deriving DecidableEq, Repr

/-- Transaction envelope sorts distinguished by the scan loop. -/
inductive TxSort
  | legacy
  | eip2930
  | eip1559
  | eip4844
  | unsupported
deriving DecidableEq, Repr

/-- One batcher transaction, reduced to the fields the scan reads. -/
structure ScanTx where
  sort : TxSort
  toAddr : Option Nat
  calldata : List Nat
  blobHashes : Option (List Nat)
  signerOk : Bool
deriving DecidableEq, Repr

/-- Mutable loop state: collected payloads, indexed blob hashes, and the
running blob-hash index counter. -/
structure ScanState where
  out : List (List Nat)
  hashes : List (Nat × Nat)
  number : Nat
deriving DecidableEq, Repr

/-- The `EigenDAProviderError` enum
(`crates/derive/src/errors/da.rs`), message payloads modelled by a type
parameter. -/
inductive EigenDAProviderError (ε : Type)
  | RetrieveFramesFromDaIndexer (m : ε)
  | TimeOut (m : ε)
  | Status (m : ε)
  | Backend (m : ε)
  | RLPDecodeError (e : DErr)
  | ProtoDecodeError (m : ε)
deriving DecidableEq, Repr

/-- Collaborators of the scan: batch-inbox address check result target,
`da_indexer_enable`, the prost `CalldataFrame` decoder, and the EigenDA
provider's retrieve call. -/
structure ScanEnv (ε : Type) where
  batcher : Nat
  daIndexerEnable : Bool
  decodeFrame : List Nat → Except ε CalldataFrame
  retrieve : List Nat → Nat → Except ε (List Nat)

/-- Result of processing one transaction: continue with a new state, break
out of the loop (`da_indexer_enable` branch), return an error from the
whole scan, or hit a Rust panic (the `blob_data[..blob_length]` range
indexing). -/
inductive StepRes (ε : Type)
  | cont (s : ScanState)
  | brk (s : ScanState)
  | fault (e : EigenDAProviderError ε)
  | crashed

/-- Blob-versioned hashes paired with their running indices, as pushed by
the empty-calldata EIP-4844 branch. -/
def indexedHashes (hs : List Nat) (start : Nat) : List (Nat × Nat) :=
  hs.enum.map (fun p => (p.2, start + p.1))

/-- The body of the `for tx in txs` loop of `data_from_eigen_da`. -/
def processTx (env : ScanEnv ε) (s : ScanState) (tx : ScanTx) : StepRes ε :=
  if tx.sort = .unsupported then .cont s
  else
    match tx.toAddr with
    | none => .cont s
    | some dest =>
      if dest ≠ env.batcher then
        .cont { s with number := s.number + (tx.blobHashes.map List.length).getD 0 }
      else if ¬ tx.signerOk then
        .cont { s with number := s.number + (tx.blobHashes.map List.length).getD 0 }
      else if env.daIndexerEnable then .brk s
      else
        match tx.calldata with
        | [] =>
          if tx.sort = .eip4844 then
            match tx.blobHashes with
            | some hs =>
              .cont { s with hashes := s.hashes ++ indexedHashes hs s.number,
                             number := s.number + hs.length }
            | none => .cont s
          else .cont s
        | c0 :: cdRest =>
          if c0 = 0xed then
            match env.decodeFrame cdRest with
            | .error e => .fault (.ProtoDecodeError e)
            | .ok frame =>
              match frame.value with
              | none => .cont s
              | some (.frame f) => .cont { s with out := s.out ++ [f] }
              | some (.frameRef fr) =>
                if fr.quorum_ids.length = 0 then .cont s
                else
                  match env.retrieve fr.commitment fr.blob_length with
                  | .error e => .fault (.Status e)
                  | .ok blob_data =>
                    if fr.blob_length ≤ blob_data.length then
                      match asListWith decodeValue (blob_data.take fr.blob_length) with
                      | .error e => .fault (.RLPDecodeError e)
                      | .ok blobs => .cont { s with out := s.out ++ blobs }
                    else .crashed
          else .cont s

/-- Overall result of the scan loop. -/
inductive ScanOut (ε : Type)
  | done (s : ScanState)
  | faulted (e : EigenDAProviderError ε)
  | crashed

/-- The scan loop itself. -/
def scanGo (env : ScanEnv ε) (s : ScanState) : List ScanTx → ScanOut ε
  | [] => .done s
  | tx :: rest =>
    match processTx env s tx with
    | .cont s2 => scanGo env s2 rest
    | .brk s2 => .done s2
    | .fault e => .faulted e
    | .crashed => .crashed

/-- `data_from_eigen_da`: run the loop from the empty state and return
`(out, hashes)`; `none` models a Rust panic. -/
def dataFromEigenDa (env : ScanEnv ε) (txs : List ScanTx) :
    Option (Except (EigenDAProviderError ε) (List (List Nat) × List (Nat × Nat))) :=
  match scanGo env ⟨[], [], 0⟩ txs with
  | .done s => some (.ok (s.out, s.hashes))
  | .faulted e => some (.error e)
  | .crashed => none

/-! ## Claims about the padding codec (C4, C5) -/

/-- C4: the claim states `unpad(pad(b)) == b` for every byte string `b`,
including lengths that are not multiples of 31.  It fails: for any input
whose length is not a multiple of 31 (such as `[0x01]`), the loop of
`convert_by_padding_empty_byte` reaches a final chunk shorter than 31
bytes yet copies it with `copy_from_slice` into a destination slice
`valid_data[i*32+1..(i+1)*32]` of fixed width 31, which panics on the
length mismatch (the code's own doc comment promises the remainder is
handled).  The theorem evaluates the code at the failing input `[0x01]`:
the pad step panics, so the round trip never returns. -/
theorem c4_pad_panics_on_remainder : convertByPaddingEmptyByte [1] = none := by
  decide

/-- C5: the claim states `remove_empty_byte_from_padded_bytes` is total for
every input length that is not a multiple of 32.  It fails for all such
positive lengths: the final group is shorter than 32 bytes, and the loop
copies `data[start..end]` (fewer than 31 bytes) into the fixed 31-byte
destination `valid_data[i*31..(i+1)*31]` with `copy_from_slice`, which
panics on the length mismatch (contradicting the function's own doc
comment).  The theorem evaluates the code at the failing input `[0x00]`
(length 1, congruent to 1 mod 32): the function panics instead of
returning `[]`. -/
theorem c5_unpad_panics_on_short_group : removeEmptyByteFromPaddedBytes [0] = none := by
  decide

/-! ## Claim about field-element extraction (C9) -/

/-- C9: `extract_field_element(blob, i, 32)` always returns exactly 32
bytes; all zeros when `i*32 ≥ len(blob)`; the exact slice
`blob[i*32..(i+1)*32]` when `(i+1)*32 ≤ len(blob)`; and the available
suffix right-padded with zeros when `i*32 < len(blob) < (i+1)*32`. -/
theorem c9_extract_field_element (blob : List Nat) (i : Nat) :
    (extract_field_element blob i 32).length = 32 ∧
    (i * 32 ≥ blob.length →
      extract_field_element blob i 32 = List.replicate 32 0) ∧
    ((i + 1) * 32 ≤ blob.length →
      extract_field_element blob i 32 = (blob.drop (i * 32)).take 32) ∧
    (i * 32 < blob.length → blob.length < (i + 1) * 32 →
      extract_field_element blob i 32 =
        blob.drop (i * 32) ++ List.replicate ((i + 1) * 32 - blob.length) 0) := by
  unfold extract_field_element
  by_cases hb : blob.length ≤ i * 32
  · rw [if_pos (by simpa [ge_iff_le] using hb)]
    exact ⟨by simp, fun _ => rfl, fun h2 => absurd h2 (by omega),
      fun h3 _ => absurd h3 (by omega)⟩
  · rw [if_neg (by simpa [ge_iff_le] using hb)]
    have hlt : i * 32 < blob.length := by omega
    have hdl : (blob.drop (i * 32)).length = blob.length - i * 32 := by simp
    refine ⟨?_, fun h => absurd h (by omega), fun h2 => ?_, fun _ h3 => ?_⟩
    · simp only [List.length_append, List.length_take, List.length_replicate, hdl]
      omega
    · have hmin : min blob.length (i * 32 + 32) = i * 32 + 32 :=
        Nat.min_eq_right (by omega)
      have hc : i * 32 + 32 - i * 32 = 32 := by omega
      simp only [hmin, hc, Nat.sub_self, List.replicate_zero, List.append_nil]
    · have hmin : min blob.length (i * 32 + 32) = blob.length :=
        Nat.min_eq_left (by omega)
      have hfull : (blob.drop (i * 32)).take (blob.length - i * 32) = blob.drop (i * 32) :=
        List.take_of_length_le (by omega)
      have hrep : 32 - (blob.length - i * 32) = (i + 1) * 32 - blob.length := by omega
      simp only [hmin, hfull, hrep]

/-- C9 witness: evaluate the theorem at a concrete short blob. -/
theorem c9_extract_field_element_witness :
    extract_field_element [7] 1 32 = List.replicate 32 0 :=
  (c9_extract_field_element [7] 1).2.1 (by decide)

/-! ## Claim C1: host/client preimage-key equivalence -/

theorem fixedBE_length (w n : Nat) (h : n < 256 ^ w) : (fixedBE w n).length = w := by
  have := beBytes_length_le n w h
  simp only [fixedBE, List.length_append, List.length_replicate]
  omega

/-- The 96-byte key template in closed form: `x` then `y` then 32 zero
bytes. -/
theorem create_blob_key_template_eq (x y : List Nat)
    (hx : x.length = 32) (hy : y.length = 32) :
    create_blob_key_template x y = x ++ y ++ List.replicate 32 0 := by
  unfold create_blob_key_template writeSlice
  rw [hx, hy]
  rw [List.take_zero, List.nil_append, Nat.zero_add]
  rw [List.drop_replicate]
  norm_num
  rw [List.take_left' hx]
  rw [List.drop_append_eq_append_drop]
  rw [List.drop_eq_nil_of_le (by omega), hx, List.drop_replicate]
  norm_num

/-- The filled 96-byte key buffer in closed form: the 24 zero bytes at
offsets `64..88` followed by the 8-byte big-endian index at `88..96`. -/
theorem hostBlobKey_eq (x y : List Nat) (i : Nat)
    (hx : x.length = 32) (hy : y.length = 32) (hi : i < 2 ^ 64) :
    hostBlobKey x y i = x ++ y ++ List.replicate 24 0 ++ fixedBE 8 i := by
  have hfl : (fixedBE 8 i).length = 8 := fixedBE_length 8 i (by norm_num at hi ⊢; omega)
  show writeSlice (create_blob_key_template x y) 88 (fixedBE 8 i) = _
  rw [create_blob_key_template_eq x y hx hy]
  unfold writeSlice
  rw [hfl]
  have hsplit : x ++ y ++ List.replicate 32 0
      = (x ++ y ++ List.replicate 24 0) ++ List.replicate 8 0 := by
    rw [show (32 : Nat) = 24 + 8 from rfl, List.replicate_add]
    simp [List.append_assoc]
  rw [hsplit]
  rw [List.take_left' (by simp [hx, hy])]
  rw [List.drop_eq_nil_of_le (by simp [hx, hy])]
  rw [List.append_nil]

/-- The 24 zero pad bytes plus the 8-byte big-endian index amount to the
32-byte big-endian word `uint256(i)`. -/
theorem fixedBE_split (i : Nat) (hi : i < 2 ^ 64) :
    List.replicate 24 0 ++ fixedBE 8 i = fixedBE 32 i := by
  have hL : (beBytes i).length ≤ 8 := beBytes_length_le i 8 (by norm_num at hi ⊢; omega)
  unfold fixedBE
  rw [← List.append_assoc, ← List.replicate_add]
  congr 2
  omega

/-- First 64 bytes of the key template are exactly `x ‖ y`. -/
theorem template_take_64 (x y : List Nat)
    (hx : x.length = 32) (hy : y.length = 32) :
    (create_blob_key_template x y).take 64 = x ++ y := by
  rw [create_blob_key_template_eq x y hx hy]
  exact List.take_left' (by simp [hx, hy])

/-- C1: for every certificate commitment (with 32-byte coordinates `x`, `y`)
and every field-element index `i`, the Host hint handler and the Client
oracle provider derive bit-for-bit identical preimage keys, and both match
the spec's derivation formulas (with the index serialised as the 32-byte
big-endian `uint256(i)`, of which bytes `64..88` of the 96-byte key buffer
are the leading zeros): `element_key = hash(x ‖ y ‖ be32(i))`,
`proof_key = hash(x ‖ y)`, `commitment_key = hash(x ‖ y ‖ 0x00)`.  The
statement is parametric in the hash function, so equality holds at the
preimage (byte) level. -/
theorem c1_host_client_key_equivalence (hash : List Nat → List Nat)
    (x y : List Nat) (i : Nat)
    (hx : x.length = 32) (hy : y.length = 32) (hi : i < 2 ^ 64) :
    hostElementKey hash x y i = clientElementKey hash x y i ∧
    clientElementKey hash x y i = specElementKey hash x y i ∧
    hostKzgProofKey x y = create_kzg_proof_key (create_blob_key_template x y) ∧
    hash (create_kzg_proof_key (create_blob_key_template x y)) = specProofKey hash x y ∧
    hostKzgCommitmentKey x y = create_kzg_commitment_key (create_blob_key_template x y) ∧
    hash (create_kzg_commitment_key (create_blob_key_template x y)) =
      specCommitmentKey hash x y := by
  refine ⟨rfl, ?_, rfl, ?_, rfl, ?_⟩
  · show hash (hostBlobKey x y i) = _
    rw [hostBlobKey_eq x y i hx hy hi]
    unfold specElementKey
    rw [List.append_assoc (x ++ y), fixedBE_split i hi]
  · unfold create_kzg_proof_key specProofKey
    rw [template_take_64 x y hx hy]
  · unfold create_kzg_commitment_key specCommitmentKey
    rw [template_take_64 x y hx hy, List.append_assoc]

/-- C1 witness: the equivalence evaluated at a concrete commitment and
index (hash instantiated with the identity function). -/
theorem c1_host_client_key_equivalence_witness :
    hostElementKey (fun l => l) (List.replicate 32 1) (List.replicate 32 2) 5 =
      clientElementKey (fun l => l) (List.replicate 32 1) (List.replicate 32 2) 5 ∧
    clientElementKey (fun l => l) (List.replicate 32 1) (List.replicate 32 2) 5 =
      specElementKey (fun l => l) (List.replicate 32 1) (List.replicate 32 2) 5 ∧
    hostKzgProofKey (List.replicate 32 1) (List.replicate 32 2) =
      create_kzg_proof_key
        (create_blob_key_template (List.replicate 32 1) (List.replicate 32 2)) ∧
    (fun (l : List Nat) => l)
        (create_kzg_proof_key
          (create_blob_key_template (List.replicate 32 1) (List.replicate 32 2))) =
      specProofKey (fun l => l) (List.replicate 32 1) (List.replicate 32 2) ∧
    hostKzgCommitmentKey (List.replicate 32 1) (List.replicate 32 2) =
      create_kzg_commitment_key
        (create_blob_key_template (List.replicate 32 1) (List.replicate 32 2)) ∧
    (fun (l : List Nat) => l)
        (create_kzg_commitment_key
          (create_blob_key_template (List.replicate 32 1) (List.replicate 32 2))) =
      specCommitmentKey (fun l => l) (List.replicate 32 1) (List.replicate 32 2) :=
  c1_host_client_key_equivalence (fun l => l)
    (List.replicate 32 1) (List.replicate 32 2) 5 (by decide) (by decide) (by norm_num)

/-! ## Claim C8: `decode_commitment` input validation -/

/-- C8: `decode_commitment` returns an error for every input shorter than
3 bytes, and for every input whose first three bytes are not exactly
`[0x01, 0x00, 0x00]`; it never returns `Ok` for such inputs. -/
theorem c8_decode_commitment_rejects (c : List Nat)
    (h : c.length < 3 ∨ c.take 3 ≠ [1, 0, 0]) :
    ∀ v : BlobInfo, decodeCommitment c ≠ .ok v := by
  intro v
  match c with
  | [] => simp [decodeCommitment]
  | [a] => simp [decodeCommitment]
  | [a, b] => simp [decodeCommitment]
  | a :: b :: d :: rest =>
    have hc : a ≠ 1 ∨ b ≠ 0 ∨ d ≠ 0 := by
      rcases h with h | h
      · simp at h; omega
      · by_contra hcon
        push_neg at hcon
        obtain ⟨h1, h2, h3⟩ := hcon
        subst h1; subst h2; subst h3
        simp [List.take] at h
    simp [decodeCommitment, hc]

/-- C8 witness: the theorem applied to the concrete 2-byte input `[1, 0]`
(too short) and the trivial certificate value. -/
theorem c8_decode_commitment_rejects_witness :
    decodeCommitment [1, 0] ≠ .ok ⟨none, none⟩ :=
  c8_decode_commitment_rejects [1, 0] (by decide) ⟨none, none⟩

/-! ## Claim C3: `encode_commitment` / `decode_commitment` mismatch -/

/-- The first byte of any string item is below `0xc0`, so a string item is
never a list. -/
theorem rlpIsList_encBytes (b : List Nat) (h : b.length < 2 ^ 64) :
    rlpIsList (encBytes b) = false := by
  unfold encBytes
  by_cases h1 : b.length = 1 ∧ b.headD 0 < 0x80
  · rw [if_pos h1]
    match b, h1 with
    | [x], ⟨_, hx⟩ =>
      simp only [List.headD_cons] at hx
      simp [rlpIsList]
      omega
  · rw [if_neg h1]
    by_cases h2 : b.length ≤ 55
    · rw [if_pos h2]
      simp [rlpIsList]
      omega
    · rw [if_neg h2]
      have : (beBytes b.length).length ≤ 8 :=
        beBytes_length_le b.length 8 (by norm_num at h ⊢; omega)
      simp [rlpIsList]
      omega

/-- C3 (code bug): the claim states `encode_commitment` emits
`[0x01][0x00][0x00]` followed directly by `rlp(BlobInfo)` and that
`decode_commitment` inverts it.  In the code, `encode_commitment`
serialises the `BlobInfo` with `prost::Message::encode` (protobuf) and
then appends those bytes to an `RlpStream` as a single *byte-string* item;
`decode_commitment` (in the same impl block — and the repository's own
fixture test) expects the tag bytes to be followed by the RLP *list*
encoding of `BlobInfo`.  A string item is never a list, so
`decode_commitment (encode_commitment v)` fails with
`RlpExpectedToBeList` for every certificate `v`, whatever protobuf bytes
`pbBytes` the prost encoder produces (for the trivial certificate with
both fields absent, `pbBytes = []` and the emitted wire bytes are
`0x01 0x00 0x00 0x80`). -/
theorem c3_encode_decode_commitment_mismatch (pbBytes : List Nat)
    (h : pbBytes.length < 2 ^ 64) :
    decodeCommitment (encodeCommitment pbBytes) =
      .error (.rlpFailed .RlpExpectedToBeList) := by
  have hlist : decodeBlobInfo (encBytes pbBytes) = .error .RlpExpectedToBeList := by
    unfold decodeBlobInfo itemCount listItems
    rw [rlpIsList_encBytes pbBytes h]
    rfl
  show decodeCommitment (1 :: 0 :: 0 :: encBytes pbBytes) = _
  simp [decodeCommitment, hlist]

/-- C3 witness: the mismatch evaluated at the trivial certificate
(empty protobuf encoding). -/
theorem c3_encode_decode_commitment_mismatch_witness :
    decodeCommitment (encodeCommitment []) =
      .error (.rlpFailed .RlpExpectedToBeList) :=
  c3_encode_decode_commitment_mismatch [] (by norm_num)

deriving instance DecidableEq for Except

/-! ## Claim C7: transport error classification -/

/-- A commitment accepted by `decode_commitment`: the 3 tag bytes followed
by the RLP encoding of the trivial certificate (`0xc2 0x80 0x80`). -/
def minimalCommitment : List Nat := [1, 0, 0, 0xc2, 0x80, 0x80]

/-- C7 counterexample: the claim states an HTTP 404 response is classified
as the `NotFound` variant of `EigenDAProxyError`.  At the concrete valid
commitment `minimalCommitment` and a 404 response, the code instead
returns the `RetrieveBlobWithCommitment` variant carrying the
"Blob not found" message; the dedicated `NotFound` variant is never
produced by this function. -/
theorem c7_counterexample_404_not_notfound :
    retrieveBlobWithCommitment minimalCommitment (.responseGot 404 []) =
      .error (.RetrieveBlobWithCommitment .blobNotFound) ∧
    retrieveBlobWithCommitment minimalCommitment (.responseGot 404 []) ≠
      .error .NotFound := by
  constructor
  · decide
  · decide

/-- C7 (amended): every failure of `retrieve_blob_with_commitment` is
reported through the `RetrieveBlobWithCommitment` variant, with message
classes that keep the claim's distinctions: 404 carries the
"Blob not found" message, any other non-200 status carries a message with
the status code, an elapsed timeout carries the timeout message (distinct
from the not-found and decode messages), and a successful 200 response
returns the raw body unmodified. -/
theorem c7_classification (commitment : List Nat) (body : List Nat)
    (status : Nat) (v : BlobInfo)
    (hdec : decodeCommitment commitment = .ok v) :
    retrieveBlobWithCommitment commitment (.responseGot 404 body) =
      .error (.RetrieveBlobWithCommitment .blobNotFound) ∧
    (status ≠ 404 → status ≠ 200 →
      retrieveBlobWithCommitment commitment (.responseGot status body) =
        .error (.RetrieveBlobWithCommitment (.badStatus status))) ∧
    retrieveBlobWithCommitment commitment (.responseGot 200 body) = .ok body ∧
    retrieveBlobWithCommitment commitment .timeoutHit =
      .error (.RetrieveBlobWithCommitment .timeoutElapsed) ∧
    (RbwcMsg.timeoutElapsed ≠ RbwcMsg.blobNotFound ∧
      ∀ e : CommitmentErr, RbwcMsg.timeoutElapsed ≠ RbwcMsg.decodeFailed e) := by
  refine ⟨?_, fun h404 h200 => ?_, ?_, ?_, by decide, fun e => by simp⟩ <;>
    simp_all [retrieveBlobWithCommitment, hdec]

/-- C7 witness: the amended classification at the concrete commitment. -/
theorem c7_classification_witness :
    retrieveBlobWithCommitment minimalCommitment (.responseGot 500 [9]) =
      .error (.RetrieveBlobWithCommitment (.badStatus 500)) :=
  ((c7_classification minimalCommitment [9] 500 ⟨none, none⟩ (by decide)).2.1
    (by decide) (by decide))

/-! ## Claims C6 and C10: the source-stage scan loop -/

/-- C6: in `data_from_eigen_da`, a batcher transaction whose EigenDA
calldata fails protobuf decoding makes the whole scan return the
`ProtoDecodeError` (the failure is propagated through `?`, not skipped),
while a successfully decoded `FrameRef` with an empty `quorum_ids` list is
skipped via `continue` — it contributes nothing and leaves the scan of the
remaining transactions (and the whole loop state) unchanged.  Both parts
are stated for an arbitrary current loop state `s`, so they apply at any
position in the block's transaction list. -/
theorem c6_decode_error_propagates_empty_quorum_skipped {ε : Type}
    (env : ScanEnv ε) (s : ScanState) (rest : List ScanTx)
    (txBad txSkip : ScanTx) (cb cs : List Nat) (e : ε) (fr : FrameRef)
    (hbs : txBad.sort ≠ .unsupported) (hba : txBad.toAddr = some env.batcher)
    (hbg : txBad.signerOk = true) (hdi : env.daIndexerEnable = false)
    (hbc : txBad.calldata = 0xed :: cb) (hbd : env.decodeFrame cb = .error e)
    (hss : txSkip.sort ≠ .unsupported) (hsa : txSkip.toAddr = some env.batcher)
    (hsg : txSkip.signerOk = true)
    (hsc : txSkip.calldata = 0xed :: cs)
    (hsd : env.decodeFrame cs = .ok ⟨some (.frameRef fr)⟩)
    (hsq : fr.quorum_ids = []) :
    scanGo env s (txBad :: rest) = .faulted (.ProtoDecodeError e) ∧
    scanGo env s (txSkip :: rest) = scanGo env s rest := by
  constructor
  · obtain ⟨bsort, bto, bcd, bbh, bsg⟩ := txBad
    simp only at hbs hba hbg hbc
    subst hba; subst hbg; subst hbc
    simp [scanGo, processTx, hbs, hdi, hbd]
  · obtain ⟨ssort, sto, scd, sbh, ssg⟩ := txSkip
    simp only at hss hsa hsg hsc
    subst hsa; subst hsg; subst hsc
    simp [scanGo, processTx, hss, hdi, hsd, hsq]

/-- Concrete scan environment for the C6/C10 witnesses: batcher address
`7`, indexer disabled, a decoder that fails on `[1]`, succeeds with an
empty-quorum `FrameRef` on `[2]` and with a two-quorum `FrameRef`
(`blob_length = 4`) on `[3]`, and a provider returning a 3-byte blob. -/
def envScanW : ScanEnv Nat where
  batcher := 7
  daIndexerEnable := false
  decodeFrame := fun cd =>
    if cd = [1] then .error 13
    else if cd = [2] then
      .ok ⟨some (.frameRef ⟨[], 0, 0, [], 4, [], []⟩)⟩
    else .ok ⟨some (.frameRef ⟨[], 0, 0, [1, 2], 4, [], [5]⟩)⟩
  retrieve := fun _ _ => .ok [0, 0, 0]

/-- C6 witness: the theorem applied to concrete transactions in the
concrete environment. -/
theorem c6_decode_error_propagates_empty_quorum_skipped_witness :
    scanGo envScanW ⟨[], [], 0⟩
        [⟨.eip1559, some 7, [0xed, 1], none, true⟩] =
      .faulted (.ProtoDecodeError 13) ∧
    scanGo envScanW ⟨[], [], 0⟩
        [⟨.eip1559, some 7, [0xed, 2], none, true⟩] =
      scanGo envScanW ⟨[], [], 0⟩ [] :=
  c6_decode_error_propagates_empty_quorum_skipped envScanW ⟨[], [], 0⟩ []
    ⟨.eip1559, some 7, [0xed, 1], none, true⟩
    ⟨.eip1559, some 7, [0xed, 2], none, true⟩
    [1] [2] 13 ⟨[], 0, 0, [], 4, [], []⟩
    (by decide) rfl rfl rfl rfl rfl (by decide) rfl rfl rfl rfl rfl

/-- C10: resolving a `FrameRef` slices the provider's bytes as
`blob_data[..frame_ref.blob_length]`; processing the transaction hits the
Rust range-indexing panic exactly when the provider returned fewer than
`blob_length` bytes.  Under the precondition that the retrieved blob is at
least `blob_length` bytes long the panic branch is unreachable and the
step is total (it continues or returns a classified error). -/
theorem c10_slice_panic_iff_short_blob {ε : Type}
    (env : ScanEnv ε) (s : ScanState) (tx : ScanTx) (cd : List Nat)
    (fr : FrameRef) (blob_data : List Nat)
    (hs : tx.sort ≠ .unsupported) (ha : tx.toAddr = some env.batcher)
    (hg : tx.signerOk = true) (hdi : env.daIndexerEnable = false)
    (hc : tx.calldata = 0xed :: cd)
    (hd : env.decodeFrame cd = .ok ⟨some (.frameRef fr)⟩)
    (hq : fr.quorum_ids ≠ [])
    (hr : env.retrieve fr.commitment fr.blob_length = .ok blob_data) :
    (processTx env s tx = .crashed ↔ blob_data.length < fr.blob_length) := by
  obtain ⟨tsort, tto, tcd, tbh, tsg⟩ := tx
  simp only at hs ha hg hc
  subst ha; subst hg; subst hc
  have hql : fr.quorum_ids.length ≠ 0 := by
    intro hz; exact hq (List.eq_nil_of_length_eq_zero hz)
  by_cases hlen : fr.blob_length ≤ blob_data.length
  · simp only [processTx, hs, hdi, hd, hql, hr, hlen]
    constructor
    · intro hcr
      exfalso
      rcases hal : asListWith decodeValue (blob_data.take fr.blob_length) with e2 | bl <;>
        simp [processTx, hs, hdi, hd, hql, hr, hlen, hal] at hcr
    · intro hlt; omega
  · simp only [processTx, hs, hdi, hd, hql, hr, hlen]
    constructor
    · intro _; omega
    · intro _
      rcases hal : asListWith decodeValue (blob_data.take fr.blob_length) with e2 | bl <;>
        simp [processTx, hs, hdi, hd, hql, hr, hlen, hal]

/-- C10 witness: the iff applied at a concrete transaction where the
provider returns 3 bytes for a `blob_length` of 4. -/
theorem c10_slice_panic_iff_short_blob_witness :
    processTx envScanW ⟨[], [], 0⟩ ⟨.eip1559, some 7, [0xed, 3], none, true⟩ =
        .crashed ↔ (3 : Nat) < 4 :=
  c10_slice_panic_iff_short_blob envScanW ⟨[], [], 0⟩
    ⟨.eip1559, some 7, [0xed, 3], none, true⟩ [3]
    ⟨[], 0, 0, [1, 2], 4, [], [5]⟩ [0, 0, 0]
    (by decide) rfl rfl rfl rfl rfl (by decide) rfl

/-! ## Round-trip infrastructure for the certificate codec (claim C2)

The header/payload split of each encoded item, and the fact that the
decoder's traversal primitives recover exactly the encoder's items. -/

/-- Header bytes of a string item. -/
def encBytesHeader (b : List Nat) : List Nat :=
  if b.length = 1 ∧ b.headD 0 < 0x80 then []
  else if b.length ≤ 55 then [0x80 + b.length]
  else (0xb7 + (beBytes b.length).length) :: beBytes b.length

/-- Header bytes of a list item. -/
def encListHeader (p : List Nat) : List Nat :=
  if p.length ≤ 55 then [0xc0 + p.length]
  else (0xf7 + (beBytes p.length).length) :: beBytes p.length

theorem encBytes_split (b : List Nat) : encBytes b = encBytesHeader b ++ b := by
  unfold encBytes encBytesHeader
  by_cases h1 : b.length = 1 ∧ b.headD 0 < 0x80
  · rw [if_pos h1, if_pos h1, List.nil_append]
  · rw [if_neg h1, if_neg h1]
    by_cases h2 : b.length ≤ 55
    · rw [if_pos h2, if_pos h2]; rfl
    · rw [if_neg h2, if_neg h2]; rfl

theorem encListPayload_split (p : List Nat) :
    encListPayload p = encListHeader p ++ p := by
  unfold encListPayload encListHeader
  by_cases h2 : p.length ≤ 55
  · rw [if_pos h2, if_pos h2]; rfl
  · rw [if_neg h2, if_neg h2]; rfl

theorem encBytes_ne_nil (b : List Nat) : encBytes b ≠ [] := by
  unfold encBytes
  by_cases h1 : b.length = 1 ∧ b.headD 0 < 0x80
  · rw [if_pos h1]
    intro hb; rw [hb] at h1; simp at h1
  · rw [if_neg h1]
    by_cases h2 : b.length ≤ 55 <;> simp [h2]

theorem encListPayload_ne_nil (p : List Nat) : encListPayload p ≠ [] := by
  unfold encListPayload
  by_cases h2 : p.length ≤ 55 <;> simp [h2]

theorem headD_ne_of_ne_nil (l : List Nat) (d d' : Nat) (h : l ≠ []) :
    l.headD d = l.headD d' := by
  match l, h with
  | a :: t, _ => rfl

theorem encBytesHeader_length_le (b : List Nat) (h : b.length < 2 ^ 64) :
    (encBytesHeader b).length ≤ 9 := by
  unfold encBytesHeader
  by_cases h1 : b.length = 1 ∧ b.headD 0 < 0x80
  · rw [if_pos h1]; simp
  · rw [if_neg h1]
    by_cases h2 : b.length ≤ 55
    · simp [h2]
    · rw [if_neg h2]
      have := beBytes_length_le b.length 8 (by norm_num at h ⊢; omega)
      simp
      omega

theorem encListHeader_length_le (p : List Nat) (h : p.length < 2 ^ 64) :
    (encListHeader p).length ≤ 9 := by
  unfold encListHeader
  by_cases h2 : p.length ≤ 55
  · simp [h2]
  · rw [if_neg h2]
    have := beBytes_length_le p.length 8 (by norm_num at h ⊢; omega)
    simp
    omega

theorem encBytes_length_le (b : List Nat) (h : b.length < 2 ^ 64) :
    (encBytes b).length ≤ b.length + 9 := by
  rw [encBytes_split]
  have := encBytesHeader_length_le b h
  simp only [List.length_append]
  omega

theorem encListPayload_length_le (p : List Nat) (h : p.length < 2 ^ 64) :
    (encListPayload p).length ≤ p.length + 9 := by
  rw [encListPayload_split]
  have := encListHeader_length_le p h
  simp only [List.length_append]
  omega

theorem encUint_length_le (n : Nat) (h : n < 2 ^ 32) :
    (encUint n).length ≤ 13 := by
  have hb : (beBytes n).length ≤ 4 := beBytes_length_le n 4 (by norm_num at h ⊢; omega)
  have := encBytes_length_le (beBytes n) (by omega)
  unfold encUint
  omega

/-- Unfolding lemma for `payloadInfo` on a nonempty list. -/
theorem payloadInfo_cons (l : Nat) (rest : List Nat) :
    payloadInfo (l :: rest) =
      (if l ≤ 0x7f then checkTotal (l :: rest) 0 1
      else if l ≤ 0xb7 then checkTotal (l :: rest) 1 (l - 0x80)
      else if l ≤ 0xbf then
        if (l :: rest).length < 1 + (l - 0xb7) then .error .RlpIsTooShort
        else match decodeUsize (rest.take (l - 0xb7)) with
          | .error e => .error e
          | .ok len => checkTotal (l :: rest) (1 + (l - 0xb7)) len
      else if l ≤ 0xf7 then checkTotal (l :: rest) 1 (l - 0xc0)
      else
        if (l :: rest).length < 1 + (l - 0xf7) then .error .RlpIsTooShort
        else match decodeUsize (rest.take (l - 0xf7)) with
          | .error e => .error e
          | .ok len => checkTotal (l :: rest) (1 + (l - 0xf7)) len) := rfl

/-- `payloadInfo` on a string item (with arbitrary trailing bytes) returns
its header/payload lengths. -/
theorem payloadInfo_encBytes (b rest : List Nat) (h64 : b.length < 2 ^ 64) :
    payloadInfo (encBytes b ++ rest) = .ok ((encBytesHeader b).length, b.length) := by
  unfold encBytes encBytesHeader
  by_cases h1 : b.length = 1 ∧ b.headD 0 < 0x80
  · rw [if_pos h1, if_pos h1]
    match b, h1 with
    | [x], ⟨_, hx⟩ =>
      simp only [List.headD_cons] at hx
      show payloadInfo (x :: rest) = _
      rw [payloadInfo_cons]
      rw [if_pos (by omega : x ≤ 0x7f)]
      unfold checkTotal
      rw [if_pos (by simp)]
      rfl
  · rw [if_neg h1, if_neg h1]
    by_cases h2 : b.length ≤ 55
    · rw [if_pos h2, if_pos h2]
      show payloadInfo ((0x80 + b.length) :: (b ++ rest)) = _
      rw [payloadInfo_cons]
      rw [if_neg (by omega), if_pos (by omega)]
      unfold checkTotal
      rw [if_pos (by simp; omega)]
      simp
    · rw [if_neg h2, if_neg h2]
      have hL : (beBytes b.length).length ≤ 8 :=
        beBytes_length_le b.length 8 (by norm_num at h64 ⊢; omega)
      have hL1 : 1 ≤ (beBytes b.length).length := by
        have := beBytes_ne_nil b.length (by omega)
        cases hbe : beBytes b.length with
        | nil => exact absurd hbe this
        | cons a t => simp
      show payloadInfo ((0xb7 + (beBytes b.length).length) ::
        ((beBytes b.length ++ b) ++ rest)) = _
      rw [payloadInfo_cons]
      rw [if_neg (by omega), if_neg (by omega), if_pos (by omega)]
      rw [if_neg (by simp; omega)]
      have htake : ((beBytes b.length ++ b) ++ rest).take
          (0xb7 + (beBytes b.length).length - 0xb7) = beBytes b.length := by
        have : 0xb7 + (beBytes b.length).length - 0xb7 = (beBytes b.length).length := by
          omega
        rw [this, List.append_assoc]
        exact List.take_left _ _
      rw [htake]
      have hdu : decodeUsize (beBytes b.length) = .ok b.length := by
        unfold decodeUsize
        rw [if_pos hL]
        rw [headD_ne_of_ne_nil _ 1 0 (beBytes_ne_nil b.length (by omega))]
        rw [if_neg (beBytes_head_ne_zero b.length (by omega))]
        rw [beVal_beBytes]
      rw [hdu]
      change checkTotal _ _ _ = _
      unfold checkTotal
      rw [if_pos (by simp; omega)]
      simp
      omega

/-- `payloadInfo` on a list item (with arbitrary trailing bytes). -/
theorem payloadInfo_encListPayload (p rest : List Nat) (h64 : p.length < 2 ^ 64) :
    payloadInfo (encListPayload p ++ rest) =
      .ok ((encListHeader p).length, p.length) := by
  unfold encListPayload encListHeader
  by_cases h2 : p.length ≤ 55
  · rw [if_pos h2, if_pos h2]
    show payloadInfo ((0xc0 + p.length) :: (p ++ rest)) = _
    rw [payloadInfo_cons]
    rw [if_neg (by omega), if_neg (by omega), if_neg (by omega), if_pos (by omega)]
    unfold checkTotal
    rw [if_pos (by simp; omega)]
    simp
  · rw [if_neg h2, if_neg h2]
    have hL : (beBytes p.length).length ≤ 8 :=
      beBytes_length_le p.length 8 (by norm_num at h64 ⊢; omega)
    have hL1 : 1 ≤ (beBytes p.length).length := by
      have := beBytes_ne_nil p.length (by omega)
      cases hbe : beBytes p.length with
      | nil => exact absurd hbe this
      | cons a t => simp
    show payloadInfo ((0xf7 + (beBytes p.length).length) ::
      ((beBytes p.length ++ p) ++ rest)) = _
    rw [payloadInfo_cons]
    rw [if_neg (by omega), if_neg (by omega), if_neg (by omega), if_neg (by omega)]
    rw [if_neg (by simp; omega)]
    have htake : ((beBytes p.length ++ p) ++ rest).take
        (0xf7 + (beBytes p.length).length - 0xf7) = beBytes p.length := by
      have : 0xf7 + (beBytes p.length).length - 0xf7 = (beBytes p.length).length := by
        omega
      rw [this, List.append_assoc]
      exact List.take_left _ _
    rw [htake]
    have hdu : decodeUsize (beBytes p.length) = .ok p.length := by
      unfold decodeUsize
      rw [if_pos hL]
      rw [headD_ne_of_ne_nil _ 1 0 (beBytes_ne_nil p.length (by omega))]
      rw [if_neg (beBytes_head_ne_zero p.length (by omega))]
      rw [beVal_beBytes]
    rw [hdu]
    change checkTotal _ _ _ = _
    unfold checkTotal
    rw [if_pos (by simp; omega)]
    simp
    omega

/-- An item slice that the traversal primitives consume exactly. -/
def TakeSpec (it : List Nat) : Prop :=
  it ≠ [] ∧ ∀ rest, takeItem (it ++ rest) = .ok (it, rest)

theorem takeItem_of_payloadInfo (it rest : List Nat) (hv lv : Nat)
    (hpi : payloadInfo (it ++ rest) = .ok (hv, lv)) (hlen : hv + lv = it.length) :
    takeItem (it ++ rest) = .ok (it, rest) := by
  unfold takeItem
  rw [hpi]
  change Except.ok ((it ++ rest).take (hv + lv), (it ++ rest).drop (hv + lv)) = _
  rw [hlen, List.take_left, List.drop_left]

theorem takeSpec_encBytes (b : List Nat) (h64 : b.length < 2 ^ 64) :
    TakeSpec (encBytes b) := by
  refine ⟨encBytes_ne_nil b, fun rest => ?_⟩
  refine takeItem_of_payloadInfo _ rest (encBytesHeader b).length b.length
    (payloadInfo_encBytes b rest h64) ?_
  rw [encBytes_split]
  simp

theorem takeSpec_encListPayload (p : List Nat) (h64 : p.length < 2 ^ 64) :
    TakeSpec (encListPayload p) := by
  refine ⟨encListPayload_ne_nil p, fun rest => ?_⟩
  refine takeItem_of_payloadInfo _ rest (encListHeader p).length p.length
    (payloadInfo_encListPayload p rest h64) ?_
  rw [encListPayload_split]
  simp

theorem takeSpec_encUint (n : Nat) (h : n < 2 ^ 32) : TakeSpec (encUint n) := by
  have hb : (beBytes n).length ≤ 4 := beBytes_length_le n 4 (by norm_num at h ⊢; omega)
  exact takeSpec_encBytes (beBytes n) (by omega)

theorem takeSpec_empty_item : TakeSpec [0x80] := by
  have : encBytes ([] : List Nat) = [0x80] := rfl
  rw [← this]
  exact takeSpec_encBytes [] (by norm_num)

/-- Splitting the concatenation of item slices recovers exactly those
slices. -/
theorem splitItemsF_flatten (its : List (List Nat))
    (h : ∀ it ∈ its, TakeSpec it) :
    ∀ f, its.flatten.length ≤ f → splitItemsF f its.flatten = .ok its := by
  induction its with
  | nil => intro f _; cases f <;> rfl
  | cons it rest ih =>
    intro f hf
    have hit : TakeSpec it := h it (by simp)
    have hne : it ≠ [] := hit.1
    have hlen1 : 1 ≤ it.length := by
      cases it with
      | nil => exact absurd rfl hne
      | cons a t => simp
    simp only [List.flatten_cons, List.length_append] at hf
    match f with
    | 0 => omega
    | f + 1 =>
      have hshape : ∃ x xs, it ++ rest.flatten = x :: xs := by
        cases hcase : it ++ rest.flatten with
        | nil => simp at hcase; exact absurd hcase.1 hne
        | cons x xs => exact ⟨x, xs, rfl⟩
      obtain ⟨x, xs, hx⟩ := hshape
      show splitItemsF (f + 1) (it ++ rest.flatten) = _
      rw [hx]
      simp only [splitItemsF]
      rw [← hx]
      simp only [hit.2 rest.flatten, ih (fun i hi => h i (by simp [hi])) f (by omega)]

theorem splitItems_flatten (its : List (List Nat))
    (h : ∀ it ∈ its, TakeSpec it) : splitItems its.flatten = .ok its :=
  splitItemsF_flatten its h its.flatten.length (Nat.le_refl _)

/-- The iterator's item prefix over a concatenation of item slices is
exactly those slices. -/
theorem itemSeqF_flatten (its : List (List Nat))
    (h : ∀ it ∈ its, TakeSpec it) :
    ∀ f, its.flatten.length ≤ f → itemSeqF f its.flatten = its := by
  induction its with
  | nil => intro f _; cases f <;> rfl
  | cons it rest ih =>
    intro f hf
    have hit : TakeSpec it := h it (by simp)
    have hne : it ≠ [] := hit.1
    have hlen1 : 1 ≤ it.length := by
      cases it with
      | nil => exact absurd rfl hne
      | cons a t => simp
    simp only [List.flatten_cons, List.length_append] at hf
    match f with
    | 0 => omega
    | f + 1 =>
      have hshape : ∃ x xs, it ++ rest.flatten = x :: xs := by
        cases hcase : it ++ rest.flatten with
        | nil => simp at hcase; exact absurd hcase.1 hne
        | cons x xs => exact ⟨x, xs, rfl⟩
      obtain ⟨x, xs, hx⟩ := hshape
      show itemSeqF (f + 1) (it ++ rest.flatten) = _
      rw [hx]
      simp only [itemSeqF]
      rw [← hx]
      simp only [hit.2 rest.flatten, ih (fun i hi => h i (by simp [hi])) f (by omega)]

theorem itemSeq_flatten (its : List (List Nat))
    (h : ∀ it ∈ its, TakeSpec it) : itemSeq its.flatten = its :=
  itemSeqF_flatten its h its.flatten.length (Nat.le_refl _)

theorem rlpIsList_encListPayload (p : List Nat) :
    rlpIsList (encListPayload p) = true := by
  unfold encListPayload
  by_cases h2 : p.length ≤ 55
  · rw [if_pos h2]; simp [rlpIsList]
  · rw [if_neg h2]; simp [rlpIsList]; omega

/-- The traversal of an encoded list item yields exactly its item slices. -/
theorem listItems_enc (its : List (List Nat))
    (h : ∀ it ∈ its, TakeSpec it) (h64 : its.flatten.length < 2 ^ 64) :
    listItems (encListPayload its.flatten) = .ok its := by
  unfold listItems
  rw [rlpIsList_encListPayload]
  simp only [if_true]
  have hpi := payloadInfo_encListPayload its.flatten [] h64
  rw [List.append_nil] at hpi
  rw [hpi]
  have hdrop : (encListPayload its.flatten).drop (encListHeader its.flatten).length
      = its.flatten := by
    rw [encListPayload_split]
    exact List.drop_left _ _
  change splitItems (((encListPayload its.flatten).drop
    (encListHeader its.flatten).length).take its.flatten.length) = _
  rw [hdrop, List.take_length]
  exact splitItems_flatten its h

theorem itemCount_enc (its : List (List Nat))
    (h : ∀ it ∈ its, TakeSpec it) (h64 : its.flatten.length < 2 ^ 64) :
    itemCount (encListPayload its.flatten) = .ok its.length := by
  unfold itemCount
  rw [listItems_enc its h h64]
  rfl

theorem atIdx_enc (its : List (List Nat)) (i : Nat) (it : List Nat)
    (h : ∀ x ∈ its, TakeSpec x) (h64 : its.flatten.length < 2 ^ 64)
    (hi : its.get? i = some it) :
    atIdx (encListPayload its.flatten) i = .ok it := by
  unfold atIdx
  rw [listItems_enc its h h64]
  change (match its.get? i with
    | some x => Except.ok x
    | none => Except.error DErr.RlpIsTooShort) = _
  rw [hi]

set_option maxRecDepth 4000

/-- Unfolding lemma for `decodeValue` on a nonempty list. -/
theorem decodeValue_cons (l : Nat) (rest : List Nat) :
    decodeValue (l :: rest) =
      (if l ≤ 0x7f then .ok [l]
      else if l ≤ 0xb7 then
        if (l :: rest).length < 1 + (l - 0x80) then .error .RlpInconsistentLengthAndData
        else
          if l = 0x81 ∧ (rest.take (l - 0x80)).headD 0 < 0x80 then
            .error .RlpInvalidIndirection
          else .ok (rest.take (l - 0x80))
      else if l ≤ 0xbf then
        if (l :: rest).length < 1 + (l - 0xb7) then .error .RlpInconsistentLengthAndData
        else match decodeUsize (rest.take (l - 0xb7)) with
          | .error e => .error e
          | .ok n =>
            if (l :: rest).length < 1 + (l - 0xb7) + n then
              .error .RlpInconsistentLengthAndData
            else .ok ((rest.drop (l - 0xb7)).take n)
      else .error .RlpExpectedToBeData) := rfl

/-- Decoding a string value recovers the encoded bytes. -/
theorem decodeValue_encBytes (b : List Nat) (h64 : b.length < 2 ^ 64) :
    decodeValue (encBytes b) = .ok b := by
  unfold encBytes
  by_cases h1 : b.length = 1 ∧ b.headD 0 < 0x80
  · rw [if_pos h1]
    match b, h1 with
    | [x], ⟨_, hx⟩ =>
      simp only [List.headD_cons] at hx
      rw [decodeValue_cons]
      rw [if_pos (by omega : x ≤ 0x7f)]
  · rw [if_neg h1]
    by_cases h2 : b.length ≤ 55
    · rw [if_pos h2]
      rw [decodeValue_cons]
      rw [if_neg (by omega), if_pos (by omega)]
      rw [if_neg (by simp; omega)]
      have htake : b.take (0x80 + b.length - 0x80) = b := by
        have hc : 0x80 + b.length - 0x80 = b.length := by omega
        rw [hc, List.take_length]
      rw [htake]
      rw [if_neg ?hside]
      case hside =>
        intro hcon
        obtain ⟨hl81, hhd⟩ := hcon
        have hb1 : b.length = 1 := by omega
        exact h1 ⟨hb1, hhd⟩
    · rw [if_neg h2]
      have hL : (beBytes b.length).length ≤ 8 :=
        beBytes_length_le b.length 8 (by norm_num at h64 ⊢; omega)
      have hL1 : 1 ≤ (beBytes b.length).length := by
        have := beBytes_ne_nil b.length (by omega)
        cases hbe : beBytes b.length with
        | nil => exact absurd hbe this
        | cons a t => simp
      rw [decodeValue_cons]
      rw [if_neg (by omega), if_neg (by omega), if_pos (by omega)]
      rw [if_neg (by simp; omega)]
      have htake : (beBytes b.length ++ b).take
          (0xb7 + (beBytes b.length).length - 0xb7) = beBytes b.length := by
        have hc : 0xb7 + (beBytes b.length).length - 0xb7
            = (beBytes b.length).length := by omega
        rw [hc]
        exact List.take_left _ _
      rw [htake]
      have hdu : decodeUsize (beBytes b.length) = .ok b.length := by
        unfold decodeUsize
        rw [if_pos hL]
        rw [headD_ne_of_ne_nil _ 1 0 (beBytes_ne_nil b.length (by omega))]
        rw [if_neg (beBytes_head_ne_zero b.length (by omega))]
        rw [beVal_beBytes]
      rw [hdu]
      change (if ((0xb7 + (beBytes b.length).length) :: (beBytes b.length ++ b)).length
          < 1 + (0xb7 + (beBytes b.length).length - 0xb7) + b.length then
          (Except.error DErr.RlpInconsistentLengthAndData : Except DErr (List Nat))
        else .ok (((beBytes b.length ++ b).drop
          (0xb7 + (beBytes b.length).length - 0xb7)).take b.length)) = _
      rw [if_neg (by simp; omega)]
      have hc : 0xb7 + (beBytes b.length).length - 0xb7
          = (beBytes b.length).length := by omega
      rw [hc, List.drop_left, List.take_length]

/-- Decoding an unsigned-integer value recovers the encoded number. -/
theorem decodeUintVal_encUint (n : Nat) (h : n < 2 ^ 32) :
    decodeUintVal 4 (encUint n) = .ok n := by
  have hb4 : (beBytes n).length ≤ 4 :=
    beBytes_length_le n 4 (by norm_num at h ⊢; omega)
  unfold decodeUintVal encUint
  rw [decodeValue_encBytes (beBytes n) (by omega)]
  change (if (beBytes n).length ≤ 4 then
      if beBytes n ≠ [] ∧ (beBytes n).headD 1 = 0 then
        (Except.error DErr.RlpInvalidIndirection : Except DErr Nat)
      else .ok (beVal (beBytes n))
    else .error .RlpIsTooBig) = _
  rw [if_pos hb4]
  rcases Nat.eq_zero_or_pos n with h0 | h0
  · subst h0
    rw [if_neg (by simp [beBytes_zero])]
    rfl
  · rw [if_neg ?hside]
    · rw [beVal_beBytes]
    case hside =>
      intro hcon
      have := beBytes_head_ne_zero n h0
      rw [headD_ne_of_ne_nil _ 1 0 (beBytes_ne_nil n h0)] at hcon
      exact this hcon.2

/-- `as_list` over a string item yields the empty list (the iterator
treats a non-list as having no items). -/
theorem asListWith_encBytes {α : Type} (dec : List Nat → Except DErr α)
    (b : List Nat) (h64 : b.length < 2 ^ 64) :
    asListWith dec (encBytes b) = .ok [] := by
  unfold asListWith
  rw [rlpIsList_encBytes b h64]
  simp

/-- `as_list` over an encoded list item decodes exactly its items. -/
theorem asListWith_enc {α : Type} (dec : List Nat → Except DErr α)
    (its : List (List Nat)) (h : ∀ it ∈ its, TakeSpec it)
    (h64 : its.flatten.length < 2 ^ 64) :
    asListWith dec (encListPayload its.flatten) = exMapM dec its := by
  unfold asListWith
  rw [rlpIsList_encListPayload]
  simp only [if_true]
  have hpi := payloadInfo_encListPayload its.flatten [] h64
  rw [List.append_nil] at hpi
  rw [hpi]
  have hdrop : (encListPayload its.flatten).drop (encListHeader its.flatten).length
      = its.flatten := by
    rw [encListPayload_split]
    exact List.drop_left _ _
  change exMapM dec (itemSeq (((encListPayload its.flatten).drop
    (encListHeader its.flatten).length).take its.flatten.length)) = _
  rw [hdrop, List.take_length, itemSeq_flatten its h]

/-- Element-wise round trips lift through `exMapM`. -/
theorem exMapM_map {α : Type} (dec : List Nat → Except DErr α)
    (enc : α → List Nat) (l : List α)
    (h : ∀ a ∈ l, dec (enc a) = .ok a) :
    exMapM dec (l.map enc) = .ok l := by
  induction l with
  | nil => rfl
  | cons a t ih =>
    show (match dec (enc a) with
      | .error e => Except.error e
      | .ok x =>
        match exMapM dec (t.map enc) with
        | .error e => .error e
        | .ok xs => .ok (x :: xs)) = _
    rw [h a (by simp), ih (fun x hx => h x (by simp [hx]))]

theorem rlpIsEmpty_encListPayload (p : List Nat) (hp : p ≠ []) :
    rlpIsEmpty (encListPayload p) = false := by
  have hl : 1 ≤ p.length := by
    cases p with
    | nil => exact absurd rfl hp
    | cons a t => simp
  unfold encListPayload
  by_cases h2 : p.length ≤ 55
  · rw [if_pos h2]
    show decide (0xc0 + p.length = 0xc0 ∨ 0xc0 + p.length = 0x80) = false
    rw [decide_eq_false_iff_not]
    push_neg
    omega
  · rw [if_neg h2]
    show decide (0xf7 + (beBytes p.length).length = 0xc0 ∨
      0xf7 + (beBytes p.length).length = 0x80) = false
    rw [decide_eq_false_iff_not]
    push_neg
    omega

theorem rlpIsEmpty_empty_item : rlpIsEmpty [0x80] = true := rfl

theorem lt64_of_lt32 (n : Nat) (h : n < 2 ^ 32) : n < 2 ^ 64 := by omega

/-- Well-formedness of an optional sub-record. -/
def WFOpt {α : Type} (P : α → Prop) : Option α → Prop
  | none => True
  | some a => P a

instance {α : Type} (P : α → Prop) [h : ∀ a, Decidable (P a)] :
    (o : Option α) → Decidable (WFOpt P o)
  | none => .isTrue trivial
  | some a => h a

/-- Well-formed `G1Commitment`. -/
def WFG1 (c : G1Commitment) : Prop := WFBytes c.x ∧ WFBytes c.y

/-- Well-formed `BlobQuorumParam` (all fields `u32`). -/
def WFQuorumParam (q : BlobQuorumParam) : Prop :=
  q.quorum_number < 2 ^ 32 ∧ q.adversary_threshold_percentage < 2 ^ 32 ∧
    q.confirmation_threshold_percentage < 2 ^ 32 ∧ q.chunk_length < 2 ^ 32

/-- Well-formed `BlobHeader`. -/
def WFBlobHeader (h : BlobHeader) : Prop :=
  WFOpt WFG1 h.commitment ∧ h.data_length < 2 ^ 32 ∧
    h.blob_quorum_params.length < 2 ^ 32 ∧
    ∀ q ∈ h.blob_quorum_params, WFQuorumParam q

/-- Well-formed `BatchHeader`. -/
def WFBatchHeader (h : BatchHeader) : Prop :=
  WFBytes h.batch_root ∧ WFBytes h.quorum_numbers ∧
    WFBytes h.quorum_signed_percentages ∧ h.reference_block_number < 2 ^ 32

/-- Well-formed `BatchMetadata`. -/
def WFBatchMetadata (m : BatchMetadata) : Prop :=
  WFOpt WFBatchHeader m.batch_header ∧ WFBytes m.signatory_record_hash ∧
    WFBytes m.fee ∧ m.confirmation_block_number < 2 ^ 32 ∧
    WFBytes m.batch_header_hash

/-- Well-formed `BlobVerificationProof`. -/
def WFProof (p : BlobVerificationProof) : Prop :=
  p.batch_id < 2 ^ 32 ∧ p.blob_index < 2 ^ 32 ∧
    WFOpt WFBatchMetadata p.batch_metadata ∧ WFBytes p.inclusion_proof ∧
    WFBytes p.quorum_indexes

/-- A valid `BlobInfo`: every byte field is a byte string of `u32`-bounded
length and every numeric field fits `u32` (the representable range of the
Rust types; EigenDA certificates are far smaller). -/
def WFBlobInfo (v : BlobInfo) : Prop :=
  WFOpt WFBlobHeader v.blob_header ∧ WFOpt WFProof v.blob_verification_proof

instance (c : G1Commitment) : Decidable (WFG1 c) := by
  unfold WFG1; infer_instance

instance (q : BlobQuorumParam) : Decidable (WFQuorumParam q) := by
  unfold WFQuorumParam; infer_instance

instance (h : BlobHeader) : Decidable (WFBlobHeader h) := by
  unfold WFBlobHeader; infer_instance

instance (h : BatchHeader) : Decidable (WFBatchHeader h) := by
  unfold WFBatchHeader; infer_instance

instance (m : BatchMetadata) : Decidable (WFBatchMetadata m) := by
  unfold WFBatchMetadata; infer_instance

instance (p : BlobVerificationProof) : Decidable (WFProof p) := by
  unfold WFProof; infer_instance

instance (v : BlobInfo) : Decidable (WFBlobInfo v) := by
  unfold WFBlobInfo; infer_instance

theorem flatten_length_le (l : List (List Nat)) (c : Nat)
    (h : ∀ x ∈ l, x.length ≤ c) : l.flatten.length ≤ l.length * c := by
  induction l with
  | nil => simp
  | cons a t ih =>
    simp only [List.flatten_cons, List.length_append, List.length_cons]
    have ha := h a (by simp)
    have ht := ih (fun x hx => h x (by simp [hx]))
    calc a.length + t.flatten.length ≤ c + t.length * c := by omega
    _ = (t.length + 1) * c := by ring

theorem encOptItem_length_le {α : Type} (enc : α → List Nat) (o : Option α)
    (c : Nat) (hc : 1 ≤ c) (h : ∀ a, o = some a → (enc a).length ≤ c) :
    (encOptItem enc o).length ≤ c := by
  cases o with
  | none => simpa [encOptItem] using hc
  | some a => exact h a rfl

theorem encOptItem_ne_nil {α : Type} (enc : α → List Nat) (o : Option α)
    (h : ∀ a, o = some a → enc a ≠ []) : encOptItem enc o ≠ [] := by
  cases o with
  | none => simp [encOptItem]
  | some a => exact h a rfl

/-! Encoded-length bounds per record type (loose, enough to keep every
list payload inside the 8-byte length-of-length range). -/

theorem encodeG1_length_lt (c : G1Commitment) (h : WFG1 c) :
    (encodeG1 c).length < 2 ^ 34 := by
  obtain ⟨hx, hy⟩ := h
  have h1 := encBytes_length_le c.x (lt64_of_lt32 _ hx.2)
  have h2 := encBytes_length_le c.y (lt64_of_lt32 _ hy.2)
  have hx32 := hx.2
  have hy32 := hy.2
  have hp : (encBytes c.x ++ encBytes c.y).length < 2 ^ 64 := by
    simp only [List.length_append]; omega
  have := encListPayload_length_le (encBytes c.x ++ encBytes c.y) hp
  unfold encodeG1
  simp only [List.length_append] at this ⊢
  omega

theorem encodeQuorumParam_length_le (q : BlobQuorumParam) (h : WFQuorumParam q) :
    (encodeQuorumParam q).length ≤ 61 := by
  obtain ⟨h1, h2, h3, h4⟩ := h
  have e1 := encUint_length_le _ h1
  have e2 := encUint_length_le _ h2
  have e3 := encUint_length_le _ h3
  have e4 := encUint_length_le _ h4
  have hp : (encUint q.quorum_number ++ encUint q.adversary_threshold_percentage ++
      encUint q.confirmation_threshold_percentage ++ encUint q.chunk_length).length
      < 2 ^ 64 := by
    simp only [List.length_append]; omega
  have := encListPayload_length_le _ hp
  unfold encodeQuorumParam
  simp only [List.length_append] at this ⊢
  omega

theorem encodeBlobHeader_length_lt (h : BlobHeader) (hw : WFBlobHeader h) :
    (encodeBlobHeader h).length < 2 ^ 40 := by
  obtain ⟨hc, hd, hn, hq⟩ := hw
  have e1 : (encOptItem encodeG1 h.commitment).length ≤ 2 ^ 34 :=
    encOptItem_length_le _ _ _ (by omega)
      (fun a ha => by
        have := encodeG1_length_lt a (by rw [ha] at hc; exact hc)
        omega)
  have e2 := encUint_length_le _ hd
  have e3 : ((h.blob_quorum_params.map encodeQuorumParam).flatten).length
      ≤ h.blob_quorum_params.length * 61 := by
    have := flatten_length_le (h.blob_quorum_params.map encodeQuorumParam) 61
      (fun x hx => by
        obtain ⟨q, hq2, rfl⟩ := List.mem_map.mp hx
        exact encodeQuorumParam_length_le q (hq q hq2))
    simpa using this
  have e4 : ((h.blob_quorum_params.map encodeQuorumParam).flatten).length
      < 2 ^ 38 := by
    have : h.blob_quorum_params.length * 61 < 2 ^ 32 * 61 :=
      Nat.mul_lt_mul_of_lt_of_le hn (Nat.le_refl 61) (by omega)
    omega
  have e5 := encListPayload_length_le
    ((h.blob_quorum_params.map encodeQuorumParam).flatten) (by omega)
  have hp : (encOptItem encodeG1 h.commitment ++ encUint h.data_length ++
      encListPayload (h.blob_quorum_params.map encodeQuorumParam).flatten).length
      < 2 ^ 64 := by
    simp only [List.length_append]; omega
  have := encListPayload_length_le _ hp
  unfold encodeBlobHeader
  simp only [List.length_append] at this ⊢
  omega

theorem encodeBatchHeader_length_lt (h : BatchHeader) (hw : WFBatchHeader h) :
    (encodeBatchHeader h).length < 2 ^ 35 := by
  obtain ⟨h1, h2, h3, h4⟩ := hw
  have e1 := encBytes_length_le _ (lt64_of_lt32 _ h1.2)
  have e2 := encBytes_length_le _ (lt64_of_lt32 _ h2.2)
  have e3 := encBytes_length_le _ (lt64_of_lt32 _ h3.2)
  have e4 := encUint_length_le _ h4
  have g1 := h1.2
  have g2 := h2.2
  have g3 := h3.2
  have hp : (encBytes h.batch_root ++ encBytes h.quorum_numbers ++
      encBytes h.quorum_signed_percentages ++
      encUint h.reference_block_number).length < 2 ^ 64 := by
    simp only [List.length_append]; omega
  have := encListPayload_length_le _ hp
  unfold encodeBatchHeader
  simp only [List.length_append] at this ⊢
  omega

theorem encodeBatchMetadata_length_lt (m : BatchMetadata) (hw : WFBatchMetadata m) :
    (encodeBatchMetadata m).length < 2 ^ 36 := by
  obtain ⟨h0, h1, h2, h3, h4⟩ := hw
  have e0 : (encOptItem encodeBatchHeader m.batch_header).length ≤ 2 ^ 35 :=
    encOptItem_length_le _ _ _ (by omega)
      (fun a ha => by
        have := encodeBatchHeader_length_lt a (by rw [ha] at h0; exact h0)
        omega)
  have e1 := encBytes_length_le _ (lt64_of_lt32 _ h1.2)
  have e2 := encBytes_length_le _ (lt64_of_lt32 _ h2.2)
  have e3 := encUint_length_le _ h3
  have e4 := encBytes_length_le _ (lt64_of_lt32 _ h4.2)
  have g1 := h1.2
  have g2 := h2.2
  have g4 := h4.2
  have hp : (encOptItem encodeBatchHeader m.batch_header ++
      encBytes m.signatory_record_hash ++ encBytes m.fee ++
      encUint m.confirmation_block_number ++
      encBytes m.batch_header_hash).length < 2 ^ 64 := by
    simp only [List.length_append]; omega
  have := encListPayload_length_le _ hp
  unfold encodeBatchMetadata
  simp only [List.length_append] at this ⊢
  omega

theorem encodeProof_length_lt (p : BlobVerificationProof) (hw : WFProof p) :
    (encodeProof p).length < 2 ^ 37 := by
  obtain ⟨h0, h1, h2, h3, h4⟩ := hw
  have e0 := encUint_length_le _ h0
  have e1 := encUint_length_le _ h1
  have e2 : (encOptItem encodeBatchMetadata p.batch_metadata).length ≤ 2 ^ 36 :=
    encOptItem_length_le _ _ _ (by omega)
      (fun a ha => by
        have := encodeBatchMetadata_length_lt a (by rw [ha] at h2; exact h2)
        omega)
  have e3 := encBytes_length_le _ (lt64_of_lt32 _ h3.2)
  have e4 := encBytes_length_le _ (lt64_of_lt32 _ h4.2)
  have g3 := h3.2
  have g4 := h4.2
  have hp : (encUint p.batch_id ++ encUint p.blob_index ++
      encOptItem encodeBatchMetadata p.batch_metadata ++
      encBytes p.inclusion_proof ++ encBytes p.quorum_indexes).length
      < 2 ^ 64 := by
    simp only [List.length_append]; omega
  have := encListPayload_length_le _ hp
  unfold encodeProof
  simp only [List.length_append] at this ⊢
  omega

theorem takeSpec_encodeG1 (c : G1Commitment) (h : WFG1 c) :
    TakeSpec (encodeG1 c) :=
  takeSpec_encListPayload _ (by
    have h1 := encBytes_length_le c.x (lt64_of_lt32 _ h.1.2)
    have h2 := encBytes_length_le c.y (lt64_of_lt32 _ h.2.2)
    have g1 := h.1.2
    have g2 := h.2.2
    simp only [List.length_append]
    omega)

theorem takeSpec_encodeQuorumParam (q : BlobQuorumParam) (h : WFQuorumParam q) :
    TakeSpec (encodeQuorumParam q) := by
  have := encodeQuorumParam_length_le q h
  unfold encodeQuorumParam at this ⊢
  apply takeSpec_encListPayload
  have h9 := encListPayload_length_le (encUint q.quorum_number ++
    encUint q.adversary_threshold_percentage ++
    encUint q.confirmation_threshold_percentage ++ encUint q.chunk_length)
  by_contra hcon
  push_neg at hcon
  rw [encListPayload_split] at this
  simp only [List.length_append] at this hcon
  have := encListHeader_length_le (encUint q.quorum_number ++
    encUint q.adversary_threshold_percentage ++
    encUint q.confirmation_threshold_percentage ++ encUint q.chunk_length)
  omega

theorem takeSpec_encodeBlobHeader (h : BlobHeader) (hw : WFBlobHeader h) :
    TakeSpec (encodeBlobHeader h) := by
  have hb := encodeBlobHeader_length_lt h hw
  unfold encodeBlobHeader at hb ⊢
  apply takeSpec_encListPayload
  rw [encListPayload_split] at hb
  simp only [List.length_append] at hb ⊢
  omega

theorem takeSpec_encodeBatchHeader (h : BatchHeader) (hw : WFBatchHeader h) :
    TakeSpec (encodeBatchHeader h) := by
  have hb := encodeBatchHeader_length_lt h hw
  unfold encodeBatchHeader at hb ⊢
  apply takeSpec_encListPayload
  rw [encListPayload_split] at hb
  simp only [List.length_append] at hb ⊢
  omega

theorem takeSpec_encodeBatchMetadata (m : BatchMetadata) (hw : WFBatchMetadata m) :
    TakeSpec (encodeBatchMetadata m) := by
  have hb := encodeBatchMetadata_length_lt m hw
  unfold encodeBatchMetadata at hb ⊢
  apply takeSpec_encListPayload
  rw [encListPayload_split] at hb
  simp only [List.length_append] at hb ⊢
  omega

theorem takeSpec_encodeProof (p : BlobVerificationProof) (hw : WFProof p) :
    TakeSpec (encodeProof p) := by
  have hb := encodeProof_length_lt p hw
  unfold encodeProof at hb ⊢
  apply takeSpec_encListPayload
  rw [encListPayload_split] at hb
  simp only [List.length_append] at hb ⊢
  omega

theorem takeSpec_encOptItem {α : Type} (enc : α → List Nat) (o : Option α)
    (P : α → Prop) (hts : ∀ a, P a → TakeSpec (enc a)) (ho : WFOpt P o) :
    TakeSpec (encOptItem enc o) := by
  cases o with
  | none => exact takeSpec_empty_item
  | some a => exact hts a ho

/-- Decoding an optional slot whose item is an encoded `Option` recovers
the `Option`. -/
theorem decodeOptAt_of_atIdx {α : Type} (dec : List Nat → Except DErr α)
    (enc : α → List Nat) (b : List Nat) (i : Nat) (o : Option α)
    (hat : atIdx b i = .ok (encOptItem enc o))
    (hne : ∀ a, o = some a → rlpIsEmpty (enc a) = false)
    (hdec : ∀ a, o = some a → dec (enc a) = .ok a) :
    decodeOptAt dec b i = .ok o := by
  unfold decodeOptAt
  rw [hat]
  change (if rlpIsEmpty (encOptItem enc o) then Except.ok none
    else match dec (encOptItem enc o) with
      | .error e => Except.error e
      | .ok a => Except.ok (some a)) = _
  cases o with
  | none =>
    have hcond : rlpIsEmpty (encOptItem enc none) = true := rfl
    rw [if_pos hcond]
  | some a =>
    have hcond : rlpIsEmpty (encOptItem enc (some a)) = false := hne a rfl
    rw [if_neg (by rw [hcond]; simp)]
    show (match dec (enc a) with
      | Except.error e => Except.error e
      | Except.ok x => Except.ok (some x)) = _
    rw [hdec a rfl]

theorem encodeG1_not_empty (c : G1Commitment) : rlpIsEmpty (encodeG1 c) = false := by
  unfold encodeG1
  apply rlpIsEmpty_encListPayload
  intro hcon
  exact encBytes_ne_nil c.x (List.append_eq_nil.mp hcon).1

theorem encodeBatchHeader_not_empty (h : BatchHeader) :
    rlpIsEmpty (encodeBatchHeader h) = false := by
  unfold encodeBatchHeader
  apply rlpIsEmpty_encListPayload
  intro hcon
  exact encBytes_ne_nil h.batch_root
    (List.append_eq_nil.mp (List.append_eq_nil.mp
      (List.append_eq_nil.mp hcon).1).1).1

theorem encodeBatchMetadata_not_empty (m : BatchMetadata) :
    rlpIsEmpty (encodeBatchMetadata m) = false := by
  unfold encodeBatchMetadata
  apply rlpIsEmpty_encListPayload
  intro hcon
  exact encOptItem_ne_nil encodeBatchHeader m.batch_header
    (fun a _ => by
      rw [show encodeBatchHeader a = encListPayload _ from rfl]
      exact encListPayload_ne_nil _)
    (List.append_eq_nil.mp (List.append_eq_nil.mp (List.append_eq_nil.mp
      (List.append_eq_nil.mp hcon).1).1).1).1

theorem encodeBlobHeader_not_empty (h : BlobHeader) :
    rlpIsEmpty (encodeBlobHeader h) = false := by
  unfold encodeBlobHeader
  apply rlpIsEmpty_encListPayload
  intro hcon
  exact encOptItem_ne_nil encodeG1 h.commitment
    (fun a _ => by
      rw [show encodeG1 a = encListPayload _ from rfl]
      exact encListPayload_ne_nil _)
    (List.append_eq_nil.mp (List.append_eq_nil.mp hcon).1).1

theorem encodeProof_not_empty (p : BlobVerificationProof) :
    rlpIsEmpty (encodeProof p) = false := by
  unfold encodeProof
  apply rlpIsEmpty_encListPayload
  intro hcon
  exact encBytes_ne_nil (beBytes p.batch_id)
    (List.append_eq_nil.mp (List.append_eq_nil.mp (List.append_eq_nil.mp
      (List.append_eq_nil.mp hcon).1).1).1).1

/-! Round trips per record type. -/

theorem decodeG1_encodeG1 (c : G1Commitment) (h : WFG1 c) :
    decodeG1 (encodeG1 c) = .ok c := by
  obtain ⟨hx, hy⟩ := h
  have hx64 : c.x.length < 2 ^ 64 := lt64_of_lt32 _ hx.2
  have hy64 : c.y.length < 2 ^ 64 := lt64_of_lt32 _ hy.2
  have hts : ∀ it ∈ [encBytes c.x, encBytes c.y], TakeSpec it := by
    intro it hit
    simp only [List.mem_cons, List.not_mem_nil, or_false] at hit
    rcases hit with rfl | rfl
    · exact takeSpec_encBytes c.x hx64
    · exact takeSpec_encBytes c.y hy64
  have hb1 := encBytes_length_le c.x hx64
  have hb2 := encBytes_length_le c.y hy64
  have hflat64 : (List.flatten [encBytes c.x, encBytes c.y]).length < 2 ^ 64 := by
    simp only [List.flatten_cons, List.flatten_nil, List.append_nil,
      List.length_append]
    have := hx.2
    have := hy.2
    omega
  have hitems : encodeG1 c
      = encListPayload (List.flatten [encBytes c.x, encBytes c.y]) := by
    simp [encodeG1]
  rw [hitems]
  simp only [decodeG1, itemCount_enc _ hts hflat64, valAtBytes,
    atIdx_enc [encBytes c.x, encBytes c.y] 0 (encBytes c.x) hts hflat64 rfl,
    atIdx_enc [encBytes c.x, encBytes c.y] 1 (encBytes c.y) hts hflat64 rfl,
    decodeValue_encBytes c.x hx64, decodeValue_encBytes c.y hy64]
  simp

theorem decodeQuorumParam_encodeQuorumParam (q : BlobQuorumParam)
    (h : WFQuorumParam q) :
    decodeQuorumParam (encodeQuorumParam q) = .ok q := by
  obtain ⟨h1, h2, h3, h4⟩ := h
  have hts : ∀ it ∈ [encUint q.quorum_number,
      encUint q.adversary_threshold_percentage,
      encUint q.confirmation_threshold_percentage,
      encUint q.chunk_length], TakeSpec it := by
    intro it hit
    simp only [List.mem_cons, List.not_mem_nil, or_false] at hit
    rcases hit with rfl | rfl | rfl | rfl
    · exact takeSpec_encUint _ h1
    · exact takeSpec_encUint _ h2
    · exact takeSpec_encUint _ h3
    · exact takeSpec_encUint _ h4
  have e1 := encUint_length_le _ h1
  have e2 := encUint_length_le _ h2
  have e3 := encUint_length_le _ h3
  have e4 := encUint_length_le _ h4
  have hflat64 : (List.flatten [encUint q.quorum_number,
      encUint q.adversary_threshold_percentage,
      encUint q.confirmation_threshold_percentage,
      encUint q.chunk_length]).length < 2 ^ 64 := by
    simp only [List.flatten_cons, List.flatten_nil, List.append_nil,
      List.length_append]
    omega
  have hitems : encodeQuorumParam q = encListPayload (List.flatten
      [encUint q.quorum_number, encUint q.adversary_threshold_percentage,
       encUint q.confirmation_threshold_percentage, encUint q.chunk_length]) := by
    simp [encodeQuorumParam]
  rw [hitems]
  simp only [decodeQuorumParam, itemCount_enc _ hts hflat64, valAtUint,
    atIdx_enc _ 0 (encUint q.quorum_number) hts hflat64 rfl,
    atIdx_enc _ 1 (encUint q.adversary_threshold_percentage) hts hflat64 rfl,
    atIdx_enc _ 2 (encUint q.confirmation_threshold_percentage) hts hflat64 rfl,
    atIdx_enc _ 3 (encUint q.chunk_length) hts hflat64 rfl,
    decodeUintVal_encUint _ h1, decodeUintVal_encUint _ h2,
    decodeUintVal_encUint _ h3, decodeUintVal_encUint _ h4]
  simp

theorem decodeBatchHeader_encodeBatchHeader (h : BatchHeader)
    (hw : WFBatchHeader h) :
    decodeBatchHeader (encodeBatchHeader h) = .ok h := by
  obtain ⟨h1, h2, h3, h4⟩ := hw
  have g1 : h.batch_root.length < 2 ^ 64 := lt64_of_lt32 _ h1.2
  have g2 : h.quorum_numbers.length < 2 ^ 64 := lt64_of_lt32 _ h2.2
  have g3 : h.quorum_signed_percentages.length < 2 ^ 64 := lt64_of_lt32 _ h3.2
  have hts : ∀ it ∈ [encBytes h.batch_root, encBytes h.quorum_numbers,
      encBytes h.quorum_signed_percentages,
      encUint h.reference_block_number], TakeSpec it := by
    intro it hit
    simp only [List.mem_cons, List.not_mem_nil, or_false] at hit
    rcases hit with rfl | rfl | rfl | rfl
    · exact takeSpec_encBytes _ g1
    · exact takeSpec_encBytes _ g2
    · exact takeSpec_encBytes _ g3
    · exact takeSpec_encUint _ h4
  have e1 := encBytes_length_le _ g1
  have e2 := encBytes_length_le _ g2
  have e3 := encBytes_length_le _ g3
  have e4 := encUint_length_le _ h4
  have k1 := h1.2
  have k2 := h2.2
  have k3 := h3.2
  have hflat64 : (List.flatten [encBytes h.batch_root,
      encBytes h.quorum_numbers, encBytes h.quorum_signed_percentages,
      encUint h.reference_block_number]).length < 2 ^ 64 := by
    simp only [List.flatten_cons, List.flatten_nil, List.append_nil,
      List.length_append]
    omega
  have hitems : encodeBatchHeader h = encListPayload (List.flatten
      [encBytes h.batch_root, encBytes h.quorum_numbers,
       encBytes h.quorum_signed_percentages,
       encUint h.reference_block_number]) := by
    simp [encodeBatchHeader]
  rw [hitems]
  simp only [decodeBatchHeader, itemCount_enc _ hts hflat64, valAtBytes,
    valAtUint,
    atIdx_enc _ 0 (encBytes h.batch_root) hts hflat64 rfl,
    atIdx_enc _ 1 (encBytes h.quorum_numbers) hts hflat64 rfl,
    atIdx_enc _ 2 (encBytes h.quorum_signed_percentages) hts hflat64 rfl,
    atIdx_enc _ 3 (encUint h.reference_block_number) hts hflat64 rfl,
    decodeValue_encBytes _ g1, decodeValue_encBytes _ g2,
    decodeValue_encBytes _ g3, decodeUintVal_encUint _ h4]
  simp

/-- Variant of `decodeOptAt_of_atIdx` where the nested decode returns a
transformed value (needed because `BlobVerificationProof` does not
round-trip identically). -/
theorem decodeOptAt_map {α : Type} (dec : List Nat → Except DErr α)
    (enc : α → List Nat) (f : α → α) (b : List Nat) (i : Nat) (o : Option α)
    (hat : atIdx b i = .ok (encOptItem enc o))
    (hne : ∀ a, o = some a → rlpIsEmpty (enc a) = false)
    (hdec : ∀ a, o = some a → dec (enc a) = .ok (f a)) :
    decodeOptAt dec b i = .ok (o.map f) := by
  unfold decodeOptAt
  rw [hat]
  change (if rlpIsEmpty (encOptItem enc o) = true then Except.ok none
    else match dec (encOptItem enc o) with
      | .error e => Except.error e
      | .ok a => Except.ok (some a)) = _
  cases o with
  | none =>
    have hcond : rlpIsEmpty (encOptItem enc none) = true := rfl
    rw [if_pos hcond]
    rfl
  | some a =>
    have hcond : rlpIsEmpty (encOptItem enc (some a)) = false := hne a rfl
    rw [if_neg (by rw [hcond]; simp)]
    show (match dec (enc a) with
      | Except.error e => Except.error e
      | Except.ok x => Except.ok (some x)) = _
    rw [hdec a rfl]
    rfl

theorem decodeBatchMetadata_encodeBatchMetadata (m : BatchMetadata)
    (hw : WFBatchMetadata m) :
    decodeBatchMetadata (encodeBatchMetadata m) = .ok m := by
  obtain ⟨h0, h1, h2, h3, h4⟩ := hw
  have g1 : m.signatory_record_hash.length < 2 ^ 64 := lt64_of_lt32 _ h1.2
  have g2 : m.fee.length < 2 ^ 64 := lt64_of_lt32 _ h2.2
  have g4 : m.batch_header_hash.length < 2 ^ 64 := lt64_of_lt32 _ h4.2
  have hts : ∀ it ∈ [encOptItem encodeBatchHeader m.batch_header,
      encBytes m.signatory_record_hash, encBytes m.fee,
      encUint m.confirmation_block_number,
      encBytes m.batch_header_hash], TakeSpec it := by
    intro it hit
    simp only [List.mem_cons, List.not_mem_nil, or_false] at hit
    rcases hit with rfl | rfl | rfl | rfl | rfl
    · exact takeSpec_encOptItem _ _ WFBatchHeader
        (fun a ha => takeSpec_encodeBatchHeader a ha) h0
    · exact takeSpec_encBytes _ g1
    · exact takeSpec_encBytes _ g2
    · exact takeSpec_encUint _ h3
    · exact takeSpec_encBytes _ g4
  have e0 : (encOptItem encodeBatchHeader m.batch_header).length ≤ 2 ^ 35 :=
    encOptItem_length_le _ _ _ (by omega)
      (fun a ha => by
        have := encodeBatchHeader_length_lt a (by rw [ha] at h0; exact h0)
        omega)
  have e1 := encBytes_length_le _ g1
  have e2 := encBytes_length_le _ g2
  have e3 := encUint_length_le _ h3
  have e4 := encBytes_length_le _ g4
  have k1 := h1.2
  have k2 := h2.2
  have k4 := h4.2
  have hflat64 : (List.flatten [encOptItem encodeBatchHeader m.batch_header,
      encBytes m.signatory_record_hash, encBytes m.fee,
      encUint m.confirmation_block_number,
      encBytes m.batch_header_hash]).length < 2 ^ 64 := by
    simp only [List.flatten_cons, List.flatten_nil, List.append_nil,
      List.length_append]
    omega
  have hitems : encodeBatchMetadata m = encListPayload (List.flatten
      [encOptItem encodeBatchHeader m.batch_header,
       encBytes m.signatory_record_hash, encBytes m.fee,
       encUint m.confirmation_block_number,
       encBytes m.batch_header_hash]) := by
    simp [encodeBatchMetadata]
  have hopt : decodeOptAt decodeBatchHeader (encListPayload (List.flatten
      [encOptItem encodeBatchHeader m.batch_header,
       encBytes m.signatory_record_hash, encBytes m.fee,
       encUint m.confirmation_block_number,
       encBytes m.batch_header_hash])) 0 = .ok m.batch_header :=
    decodeOptAt_of_atIdx decodeBatchHeader encodeBatchHeader _ 0 m.batch_header
      (atIdx_enc _ 0 _ hts hflat64 rfl)
      (fun a _ => encodeBatchHeader_not_empty a)
      (fun a ha => decodeBatchHeader_encodeBatchHeader a
        (by rw [ha] at h0; exact h0))
  rw [hitems]
  simp only [decodeBatchMetadata, itemCount_enc _ hts hflat64, hopt,
    valAtBytes, valAtUint,
    atIdx_enc _ 1 (encBytes m.signatory_record_hash) hts hflat64 rfl,
    atIdx_enc _ 2 (encBytes m.fee) hts hflat64 rfl,
    atIdx_enc _ 3 (encUint m.confirmation_block_number) hts hflat64 rfl,
    atIdx_enc _ 4 (encBytes m.batch_header_hash) hts hflat64 rfl,
    decodeValue_encBytes _ g1, decodeValue_encBytes _ g2,
    decodeUintVal_encUint _ h3, decodeValue_encBytes _ g4]
  simp

theorem decodeBlobHeader_encodeBlobHeader (h : BlobHeader)
    (hw : WFBlobHeader h) :
    decodeBlobHeader (encodeBlobHeader h) = .ok h := by
  obtain ⟨h0, h1, h2, h3⟩ := hw
  have hpflat38 : ((h.blob_quorum_params.map encodeQuorumParam).flatten).length
      < 2 ^ 38 := by
    have hb := flatten_length_le (h.blob_quorum_params.map encodeQuorumParam) 61
      (fun x hx => by
        obtain ⟨q, hq2, rfl⟩ := List.mem_map.mp hx
        exact encodeQuorumParam_length_le q (h3 q hq2))
    simp only [List.length_map] at hb
    have : h.blob_quorum_params.length * 61 < 2 ^ 32 * 61 :=
      Nat.mul_lt_mul_of_lt_of_le h2 (Nat.le_refl 61) (by omega)
    omega
  have hpflat : ((h.blob_quorum_params.map encodeQuorumParam).flatten).length
      < 2 ^ 64 := by omega
  have hts : ∀ it ∈ [encOptItem encodeG1 h.commitment,
      encUint h.data_length,
      encListPayload (h.blob_quorum_params.map encodeQuorumParam).flatten],
      TakeSpec it := by
    intro it hit
    simp only [List.mem_cons, List.not_mem_nil, or_false] at hit
    rcases hit with rfl | rfl | rfl
    · exact takeSpec_encOptItem _ _ WFG1 (fun a ha => takeSpec_encodeG1 a ha) h0
    · exact takeSpec_encUint _ h1
    · exact takeSpec_encListPayload _ hpflat
  have e0 : (encOptItem encodeG1 h.commitment).length ≤ 2 ^ 34 :=
    encOptItem_length_le _ _ _ (by omega)
      (fun a ha => by
        have := encodeG1_length_lt a (by rw [ha] at h0; exact h0)
        omega)
  have e1 := encUint_length_le _ h1
  have e2 := encListPayload_length_le _ hpflat
  have e2b := hpflat38
  have hflat64 : (List.flatten [encOptItem encodeG1 h.commitment,
      encUint h.data_length,
      encListPayload (h.blob_quorum_params.map encodeQuorumParam).flatten]).length
      < 2 ^ 64 := by
    simp only [List.flatten_cons, List.flatten_nil, List.append_nil,
      List.length_append]
    omega
  have hitems : encodeBlobHeader h = encListPayload (List.flatten
      [encOptItem encodeG1 h.commitment, encUint h.data_length,
       encListPayload (h.blob_quorum_params.map encodeQuorumParam).flatten]) := by
    simp [encodeBlobHeader]
  have hopt : decodeOptAt decodeG1 (encListPayload (List.flatten
      [encOptItem encodeG1 h.commitment, encUint h.data_length,
       encListPayload (h.blob_quorum_params.map encodeQuorumParam).flatten])) 0
      = .ok h.commitment :=
    decodeOptAt_of_atIdx decodeG1 encodeG1 _ 0 h.commitment
      (atIdx_enc _ 0 _ hts hflat64 rfl)
      (fun a _ => encodeG1_not_empty a)
      (fun a ha => decodeG1_encodeG1 a (by rw [ha] at h0; exact h0))
  have hparamts : ∀ it ∈ h.blob_quorum_params.map encodeQuorumParam,
      TakeSpec it := by
    intro it hit
    obtain ⟨q, hq2, rfl⟩ := List.mem_map.mp hit
    exact takeSpec_encodeQuorumParam q (h3 q hq2)
  have hlist : listAtWith decodeQuorumParam (encListPayload (List.flatten
      [encOptItem encodeG1 h.commitment, encUint h.data_length,
       encListPayload (h.blob_quorum_params.map encodeQuorumParam).flatten])) 2
      = .ok h.blob_quorum_params := by
    unfold listAtWith
    rw [atIdx_enc _ 2 (encListPayload
      (h.blob_quorum_params.map encodeQuorumParam).flatten) hts hflat64 rfl]
    change asListWith decodeQuorumParam (encListPayload
      (h.blob_quorum_params.map encodeQuorumParam).flatten) = _
    rw [asListWith_enc decodeQuorumParam _ hparamts hpflat]
    exact exMapM_map decodeQuorumParam encodeQuorumParam h.blob_quorum_params
      (fun q hq2 => decodeQuorumParam_encodeQuorumParam q (h3 q hq2))
  rw [hitems]
  simp only [decodeBlobHeader, itemCount_enc _ hts hflat64, hopt, hlist,
    valAtUint,
    atIdx_enc _ 1 (encUint h.data_length) hts hflat64 rfl,
    decodeUintVal_encUint _ h1]
  simp

theorem decodeProof_encodeProof (p : BlobVerificationProof) (hw : WFProof p) :
    decodeProof (encodeProof p) =
      .ok { p with quorum_indexes := [] } := by
  obtain ⟨h0, h1, h2, h3, h4⟩ := hw
  have g3 : p.inclusion_proof.length < 2 ^ 64 := lt64_of_lt32 _ h3.2
  have g4 : p.quorum_indexes.length < 2 ^ 64 := lt64_of_lt32 _ h4.2
  have hts : ∀ it ∈ [encUint p.batch_id, encUint p.blob_index,
      encOptItem encodeBatchMetadata p.batch_metadata,
      encBytes p.inclusion_proof, encBytes p.quorum_indexes], TakeSpec it := by
    intro it hit
    simp only [List.mem_cons, List.not_mem_nil, or_false] at hit
    rcases hit with rfl | rfl | rfl | rfl | rfl
    · exact takeSpec_encUint _ h0
    · exact takeSpec_encUint _ h1
    · exact takeSpec_encOptItem _ _ WFBatchMetadata
        (fun a ha => takeSpec_encodeBatchMetadata a ha) h2
    · exact takeSpec_encBytes _ g3
    · exact takeSpec_encBytes _ g4
  have e0 := encUint_length_le _ h0
  have e1 := encUint_length_le _ h1
  have e2 : (encOptItem encodeBatchMetadata p.batch_metadata).length ≤ 2 ^ 36 :=
    encOptItem_length_le _ _ _ (by omega)
      (fun a ha => by
        have := encodeBatchMetadata_length_lt a (by rw [ha] at h2; exact h2)
        omega)
  have e3 := encBytes_length_le _ g3
  have e4 := encBytes_length_le _ g4
  have k3 := h3.2
  have k4 := h4.2
  have hflat64 : (List.flatten [encUint p.batch_id, encUint p.blob_index,
      encOptItem encodeBatchMetadata p.batch_metadata,
      encBytes p.inclusion_proof, encBytes p.quorum_indexes]).length
      < 2 ^ 64 := by
    simp only [List.flatten_cons, List.flatten_nil, List.append_nil,
      List.length_append]
    omega
  have hitems : encodeProof p = encListPayload (List.flatten
      [encUint p.batch_id, encUint p.blob_index,
       encOptItem encodeBatchMetadata p.batch_metadata,
       encBytes p.inclusion_proof, encBytes p.quorum_indexes]) := by
    simp [encodeProof]
  have hopt : decodeOptAt decodeBatchMetadata (encListPayload (List.flatten
      [encUint p.batch_id, encUint p.blob_index,
       encOptItem encodeBatchMetadata p.batch_metadata,
       encBytes p.inclusion_proof, encBytes p.quorum_indexes])) 2
      = .ok p.batch_metadata :=
    decodeOptAt_of_atIdx decodeBatchMetadata encodeBatchMetadata _ 2
      p.batch_metadata
      (atIdx_enc _ 2 _ hts hflat64 rfl)
      (fun a _ => encodeBatchMetadata_not_empty a)
      (fun a ha => decodeBatchMetadata_encodeBatchMetadata a
        (by rw [ha] at h2; exact h2))
  have hqi : listAtWith (decodeUintVal 1) (encListPayload (List.flatten
      [encUint p.batch_id, encUint p.blob_index,
       encOptItem encodeBatchMetadata p.batch_metadata,
       encBytes p.inclusion_proof, encBytes p.quorum_indexes])) 4
      = .ok [] := by
    unfold listAtWith
    rw [atIdx_enc _ 4 (encBytes p.quorum_indexes) hts hflat64 rfl]
    change asListWith (decodeUintVal 1) (encBytes p.quorum_indexes) = _
    exact asListWith_encBytes _ _ g4
  rw [hitems]
  simp only [decodeProof, itemCount_enc _ hts hflat64, hopt, hqi,
    valAtBytes, valAtUint,
    atIdx_enc _ 0 (encUint p.batch_id) hts hflat64 rfl,
    atIdx_enc _ 1 (encUint p.blob_index) hts hflat64 rfl,
    atIdx_enc _ 3 (encBytes p.inclusion_proof) hts hflat64 rfl,
    decodeUintVal_encUint _ h0, decodeUintVal_encUint _ h1,
    decodeValue_encBytes _ g3]
  simp

/-- Certificate value with the `quorum_indexes` of its verification proof
(if any) replaced by the empty byte string — what decode actually
reconstructs from an encoded certificate. -/
def clearQuorumIndexes (v : BlobInfo) : BlobInfo :=
  { v with blob_verification_proof :=
      v.blob_verification_proof.map (fun p => { p with quorum_indexes := [] }) }

/-- The exact round-trip behaviour of the certificate codec: everything is
recovered except `quorum_indexes`, which always decodes to `[]` because
the encoder writes it as a byte string while the decoder reads that
position with `list_at` (whose iterator yields no items on a non-list). -/
theorem decodeBlobInfo_encodeBlobInfo (v : BlobInfo) (hw : WFBlobInfo v) :
    decodeBlobInfo (encodeBlobInfo v) = .ok (clearQuorumIndexes v) := by
  obtain ⟨h0, h1⟩ := hw
  have hts : ∀ it ∈ [encOptItem encodeBlobHeader v.blob_header,
      encOptItem encodeProof v.blob_verification_proof], TakeSpec it := by
    intro it hit
    simp only [List.mem_cons, List.not_mem_nil, or_false] at hit
    rcases hit with rfl | rfl
    · exact takeSpec_encOptItem _ _ WFBlobHeader
        (fun a ha => takeSpec_encodeBlobHeader a ha) h0
    · exact takeSpec_encOptItem _ _ WFProof
        (fun a ha => takeSpec_encodeProof a ha) h1
  have e0 : (encOptItem encodeBlobHeader v.blob_header).length ≤ 2 ^ 40 :=
    encOptItem_length_le _ _ _ (by omega)
      (fun a ha => by
        have := encodeBlobHeader_length_lt a (by rw [ha] at h0; exact h0)
        omega)
  have e1 : (encOptItem encodeProof v.blob_verification_proof).length ≤ 2 ^ 37 :=
    encOptItem_length_le _ _ _ (by omega)
      (fun a ha => by
        have := encodeProof_length_lt a (by rw [ha] at h1; exact h1)
        omega)
  have hflat64 : (List.flatten [encOptItem encodeBlobHeader v.blob_header,
      encOptItem encodeProof v.blob_verification_proof]).length < 2 ^ 64 := by
    simp only [List.flatten_cons, List.flatten_nil, List.append_nil,
      List.length_append]
    omega
  have hitems : encodeBlobInfo v = encListPayload (List.flatten
      [encOptItem encodeBlobHeader v.blob_header,
       encOptItem encodeProof v.blob_verification_proof]) := by
    simp [encodeBlobInfo]
  have hopt0 : decodeOptAt decodeBlobHeader (encListPayload (List.flatten
      [encOptItem encodeBlobHeader v.blob_header,
       encOptItem encodeProof v.blob_verification_proof])) 0
      = .ok v.blob_header :=
    decodeOptAt_of_atIdx decodeBlobHeader encodeBlobHeader _ 0 v.blob_header
      (atIdx_enc _ 0 _ hts hflat64 rfl)
      (fun a _ => encodeBlobHeader_not_empty a)
      (fun a ha => decodeBlobHeader_encodeBlobHeader a
        (by rw [ha] at h0; exact h0))
  have hopt1 : decodeOptAt decodeProof (encListPayload (List.flatten
      [encOptItem encodeBlobHeader v.blob_header,
       encOptItem encodeProof v.blob_verification_proof])) 1
      = .ok (v.blob_verification_proof.map
          (fun p => { p with quorum_indexes := [] })) :=
    decodeOptAt_map decodeProof encodeProof
      (fun p => { p with quorum_indexes := [] }) _ 1 v.blob_verification_proof
      (atIdx_enc _ 1 _ hts hflat64 rfl)
      (fun a _ => encodeProof_not_empty a)
      (fun a ha => decodeProof_encodeProof a (by rw [ha] at h1; exact h1))
  rw [hitems]
  simp only [decodeBlobInfo, itemCount_enc _ hts hflat64, hopt0, hopt1]
  simp [clearQuorumIndexes]

/-! ## Claim C2: certificate codec round trip -/

/-- C2 counterexample: the claim asserts `decode(encode(v)) == v` for every
valid `BlobInfo`, including arbitrary `quorum_indexes` contents.  At the
concrete certificate whose verification proof has
`quorum_indexes = [0x01]`, the round trip fails: `rlp_append` writes
`quorum_indexes` (a `bytes` field) as an RLP byte string, but `decode`
reads that list position with `list_at`, whose iterator treats the
non-list item as having no elements, so the field decodes to `[]`. -/
theorem c2_roundtrip_counterexample :
    decodeBlobInfo (encodeBlobInfo
      ⟨none, some ⟨0, 0, none, [], [1]⟩⟩) ≠
      .ok ⟨none, some ⟨0, 0, none, [], [1]⟩⟩ := by
  decide

/-- C2 (amended): for every valid `BlobInfo` value `v` (optional
sub-records present or absent, arbitrary byte/numeric field contents
within the `u32`-bounded representable range), decoding the RLP encoding
recovers `v` with the verification proof's `quorum_indexes` replaced by
the empty byte string; in particular `decode(encode(v)) == v` holds
exactly for the values whose `quorum_indexes` is already empty (or whose
proof is absent). -/
theorem c2_certificate_roundtrip (v : BlobInfo) (hw : WFBlobInfo v) :
    decodeBlobInfo (encodeBlobInfo v) = .ok (clearQuorumIndexes v) ∧
    ((∀ p ∈ v.blob_verification_proof, p.quorum_indexes = []) →
      decodeBlobInfo (encodeBlobInfo v) = .ok v) := by
  refine ⟨decodeBlobInfo_encodeBlobInfo v hw, fun hq => ?_⟩
  rw [decodeBlobInfo_encodeBlobInfo v hw]
  have hclear : clearQuorumIndexes v = v := by
    unfold clearQuorumIndexes
    cases hp : v.blob_verification_proof with
    | none =>
      simp only [Option.map_none']
      rw [← hp]
    | some p =>
      have hqe := hq p (by rw [hp]; rfl)
      simp only [Option.map_some']
      have hfix : { p with quorum_indexes := ([] : List Nat) } = p := by
        cases p with
        | mk a b c d e =>
          simp only at hqe
          subst hqe
          rfl
      rw [hfix, ← hp]
  rw [hclear]

/-- C2 witness: the round trip at a fully-populated concrete certificate
(nested commitment, quorum params, batch metadata, long inclusion proof)
with empty `quorum_indexes`. -/
theorem c2_certificate_roundtrip_witness :
    decodeBlobInfo (encodeBlobInfo
      ⟨some ⟨some ⟨[170], [187]⟩, 512,
            [⟨0, 33, 55, 1⟩]⟩,
       some ⟨84142, 165,
            some ⟨some ⟨[1, 2, 3], [0, 1], [99, 98], 2783691⟩,
                  [7], [0], 2783776, [5, 6]⟩,
            List.replicate 60 7, []⟩⟩) =
      .ok (clearQuorumIndexes
        ⟨some ⟨some ⟨[170], [187]⟩, 512,
              [⟨0, 33, 55, 1⟩]⟩,
         some ⟨84142, 165,
              some ⟨some ⟨[1, 2, 3], [0, 1], [99, 98], 2783691⟩,
                    [7], [0], 2783776, [5, 6]⟩,
              List.replicate 60 7, []⟩⟩) ∧
    ((∀ p ∈ (⟨some ⟨some ⟨[170], [187]⟩, 512,
            [⟨0, 33, 55, 1⟩]⟩,
       some ⟨84142, 165,
            some ⟨some ⟨[1, 2, 3], [0, 1], [99, 98], 2783691⟩,
                  [7], [0], 2783776, [5, 6]⟩,
            List.replicate 60 7, []⟩⟩ : BlobInfo).blob_verification_proof,
        p.quorum_indexes = []) →
      decodeBlobInfo (encodeBlobInfo
        ⟨some ⟨some ⟨[170], [187]⟩, 512,
              [⟨0, 33, 55, 1⟩]⟩,
         some ⟨84142, 165,
              some ⟨some ⟨[1, 2, 3], [0, 1], [99, 98], 2783691⟩,
                    [7], [0], 2783776, [5, 6]⟩,
              List.replicate 60 7, []⟩⟩) =
        .ok ⟨some ⟨some ⟨[170], [187]⟩, 512,
              [⟨0, 33, 55, 1⟩]⟩,
         some ⟨84142, 165,
              some ⟨some ⟨[1, 2, 3], [0, 1], [99, 98], 2783691⟩,
                    [7], [0], 2783776, [5, 6]⟩,
              List.replicate 60 7, []⟩⟩) :=
  c2_certificate_roundtrip
    ⟨some ⟨some ⟨[170], [187]⟩, 512,
          [⟨0, 33, 55, 1⟩]⟩,
     some ⟨84142, 165,
          some ⟨some ⟨[1, 2, 3], [0, 1], [99, 98], 2783691⟩,
                [7], [0], 2783776, [5, 6]⟩,
          List.replicate 60 7, []⟩⟩
    (by decide)

end KonaEigenDA
